import Mathlib

set_option maxHeartbeats 2000000
set_option maxRecDepth 8000

/-
Shallow embedding of the EVM benchmark program generators of this repository:
`src/program_generator/pg_arythmetic.py` (the "arithmetic" flavor) and
`src/program_generator/pg_validation.py` (the "validation" flavor).

The helpers of `common.py`, `constants.py` and the CSV data files are not part
of the provided sources; the definitions that embed them carry a doc comment
starting with "Modelled from the spec:".

The random stream of Python's `random` module is embedded as an explicit
function `Rng : Nat -> Nat` together with a position counter that every draw
advances by one; each primitive draw (`random.random() < 0.5`,
`random.choice`, `random.getrandbits`, `random.randint`) reads one stream
value and reduces it into its range.
-/

/-- Hexadecimal digit characters in value order, as produced by Python `hex`. -/
def hexChars : List Char := "0123456789abcdef".data

/-- The character of a single hex digit (out-of-range values give '0'). -/
def hexDigitChar (n : ℕ) : Char := hexChars.getD n '0'

/-- Fuelled big-endian hex rendering of a natural number; renders 0 as the
empty list (the zero case is handled by `toHexL`, matching Python `hex`). -/
def toHexAux : ℕ → ℕ → List Char
  | 0, _ => []
  | f+1, n => if n = 0 then [] else toHexAux f (n / 16) ++ [hexDigitChar (n % 16)]

/-- Python `hex(n)[2:]`. Every number rendered by the generators is below
`16 ^ 128`, so the fuel of 128 is never exhausted on real inputs. -/
def toHexL (n : ℕ) : List Char := if n = 0 then ['0'] else toHexAux 128 n

/-- Left-pad a hex string with '0' to width `w`; a no-op when the string is
already at least `w` long, exactly like the padding in `_random_push`. -/
def padLeft (w : ℕ) (s : List Char) : List Char := List.replicate (w - s.length) '0' ++ s

theorem hexDigitChar_mem (n : ℕ) : hexDigitChar n ∈ hexChars := by
  by_cases h : n < 16
  · interval_cases n <;> decide
  · unfold hexDigitChar
    rw [List.getD_eq_default]
    · decide
    · have h16 : hexChars.length = 16 := rfl
      omega

theorem toHexAux_hex : ∀ f n, ∀ c ∈ toHexAux f n, c ∈ hexChars := by
  intro f
  induction f with
  | zero => intro n c h; simp [toHexAux] at h
  | succ f ih =>
    intro n c h
    simp only [toHexAux] at h
    split at h
    · simp at h
    · rcases List.mem_append.mp h with h1 | h1
      · exact ih _ _ h1
      · simp only [List.mem_singleton] at h1
        subst h1
        exact hexDigitChar_mem _

theorem toHexAux_length : ∀ f n k, n < 16 ^ k → k ≤ f → (toHexAux f n).length ≤ k := by
  intro f
  induction f with
  | zero =>
    intro n k h hk
    simp [toHexAux]
  | succ f ih =>
    intro n k h hk
    simp only [toHexAux]
    split
    · simp
    · rename_i hn
      have hk1 : k ≠ 0 := by
        rintro rfl
        simp only [pow_zero] at h
        omega
      obtain ⟨k', rfl⟩ : ∃ k', k = k' + 1 := ⟨k - 1, by omega⟩
      have hdiv : n / 16 < 16 ^ k' := by
        have h16 : (0:ℕ) < 16 := by norm_num
        rw [Nat.div_lt_iff_lt_mul h16]
        calc n < 16 ^ (k' + 1) := h
          _ = 16 ^ k' * 16 := by ring
      have hrec := ih (n / 16) k' hdiv (by omega)
      rw [List.length_append, List.length_singleton]
      omega

theorem toHexL_hex (n : ℕ) : ∀ c ∈ toHexL n, c ∈ hexChars := by
  intro c h
  unfold toHexL at h
  split at h
  · simp only [List.mem_singleton] at h
    subst h
    decide
  · exact toHexAux_hex _ _ _ h

theorem toHexL_length (n k : ℕ) (h : n < 16 ^ k) (hk : 0 < k) (hk' : k ≤ 128) :
    (toHexL n).length ≤ k := by
  unfold toHexL
  split
  · simpa using hk
  · exact toHexAux_length _ _ _ h hk'

theorem padLeft_length (w : ℕ) (s : List Char) (h : s.length ≤ w) :
    (padLeft w s).length = w := by
  unfold padLeft
  rw [List.length_append, List.length_replicate]
  omega

theorem padLeft_hex (w : ℕ) (s : List Char) (h : ∀ c ∈ s, c ∈ hexChars) :
    ∀ c ∈ padLeft w s, c ∈ hexChars := by
  intro c hc
  unfold padLeft at hc
  rcases List.mem_append.mp hc with h1 | h1
  · rw [List.eq_of_mem_replicate h1]
    decide
  · exact h _ h1

/-- Declared stack/gas data of one opcode: `Removed from stack`,
`Added to stack` and `Gas Used` of the opcode tables. -/
structure OpInfo where
  removed : Int
  added : Int
  gas : Int
deriving DecidableEq

/-- Modelled from the spec: the opcode catalog (the CSV files
`data/opcodes.csv`, `data/selection.csv` and `common.prepare_opcodes` are not
part of `src/`).  Per the spec this is an immutable mapping
`opcodeByte -> (removedFromStack, addedToStack, gasCost)` with conventional
EVM arities: PUSHn removes 0 and adds 1, DUPn removes n and adds n+1, SWAPn
removes n+1 and adds n+1. Opcodes outside the catalog get `(0, 0, 0)`. -/
def opInfo (op : ℕ) : OpInfo :=
  if 0x60 ≤ op ∧ op ≤ 0x7f then ⟨0, 1, 3⟩
  else if 0x80 ≤ op ∧ op ≤ 0x8f then ⟨(op : Int) - 0x7f, (op : Int) - 0x7e, 3⟩
  else if 0x90 ≤ op ∧ op ≤ 0x9f then ⟨(op : Int) - 0x8e, (op : Int) - 0x8e, 3⟩
  else match op with
  | 0x01 => ⟨2, 1, 3⟩   -- ADD
  | 0x02 => ⟨2, 1, 5⟩   -- MUL
  | 0x03 => ⟨2, 1, 3⟩   -- SUB
  | 0x04 => ⟨2, 1, 5⟩   -- DIV
  | 0x05 => ⟨2, 1, 5⟩   -- SDIV
  | 0x06 => ⟨2, 1, 5⟩   -- MOD
  | 0x07 => ⟨2, 1, 5⟩   -- SMOD
  | 0x08 => ⟨3, 1, 8⟩   -- ADDMOD
  | 0x09 => ⟨3, 1, 8⟩   -- MULMOD
  | 0x0a => ⟨2, 1, 10⟩  -- EXP
  | 0x0b => ⟨2, 1, 5⟩   -- SIGNEXTEND
  | 0x10 => ⟨2, 1, 3⟩   -- LT
  | 0x11 => ⟨2, 1, 3⟩   -- GT
  | 0x12 => ⟨2, 1, 3⟩   -- SLT
  | 0x13 => ⟨2, 1, 3⟩   -- SGT
  | 0x14 => ⟨2, 1, 3⟩   -- EQ
  | 0x15 => ⟨1, 1, 3⟩   -- ISZERO
  | 0x16 => ⟨2, 1, 3⟩   -- AND
  | 0x17 => ⟨2, 1, 3⟩   -- OR
  | 0x18 => ⟨2, 1, 3⟩   -- XOR
  | 0x19 => ⟨1, 1, 3⟩   -- NOT
  | 0x1a => ⟨2, 1, 3⟩   -- BYTE
  | 0x1b => ⟨2, 1, 3⟩   -- SHL
  | 0x1c => ⟨2, 1, 3⟩   -- SHR
  | 0x1d => ⟨2, 1, 3⟩   -- SAR
  | 0x30 => ⟨0, 1, 2⟩   -- ADDRESS
  | 0x32 => ⟨0, 1, 2⟩   -- ORIGIN
  | 0x33 => ⟨0, 1, 2⟩   -- CALLER
  | 0x34 => ⟨0, 1, 2⟩   -- CALLVALUE
  | 0x35 => ⟨1, 1, 3⟩   -- CALLDATALOAD
  | 0x36 => ⟨0, 1, 2⟩   -- CALLDATASIZE
  | 0x37 => ⟨3, 0, 3⟩   -- CALLDATACOPY
  | 0x38 => ⟨0, 1, 2⟩   -- CODESIZE
  | 0x39 => ⟨3, 0, 3⟩   -- CODECOPY
  | 0x3a => ⟨0, 1, 2⟩   -- GASPRICE
  | 0x3d => ⟨0, 1, 2⟩   -- RETURNDATASIZE
  | 0x41 => ⟨0, 1, 2⟩   -- COINBASE
  | 0x42 => ⟨0, 1, 2⟩   -- TIMESTAMP
  | 0x43 => ⟨0, 1, 2⟩   -- NUMBER
  | 0x44 => ⟨0, 1, 2⟩   -- DIFFICULTY
  | 0x45 => ⟨0, 1, 2⟩   -- GASLIMIT
  | 0x46 => ⟨0, 1, 2⟩   -- CHAINID
  | 0x47 => ⟨0, 1, 2⟩   -- SELFBALANCE
  | 0x50 => ⟨1, 0, 2⟩   -- POP
  | 0x51 => ⟨1, 1, 3⟩   -- MLOAD
  | 0x52 => ⟨2, 0, 3⟩   -- MSTORE
  | 0x53 => ⟨2, 0, 3⟩   -- MSTORE8
  | 0x56 => ⟨1, 0, 8⟩   -- JUMP
  | 0x57 => ⟨2, 0, 10⟩  -- JUMPI
  | 0x58 => ⟨0, 1, 2⟩   -- PC
  | 0x59 => ⟨0, 1, 2⟩   -- MSIZE
  | 0x5a => ⟨0, 1, 2⟩   -- GAS
  | 0x5b => ⟨0, 0, 1⟩   -- JUMPDEST
  | _ => ⟨0, 0, 0⟩

/-- The `arithmetic_ops` list shared by both generators. -/
def arithmeticOps : List ℕ := [0x01, 0x02, 0x03, 0x04, 0x05, 0x06, 0x07, 0x08, 0x09]

/-- The `exp_ops` list. -/
def expOps : List ℕ := [0x0a]

/-- The `bitwise_ops` list. -/
def bitwiseOps : List ℕ := [0x16, 0x17, 0x18, 0x19]

/-- The `byte_ops` list (BYTE, SIGNEXTEND). -/
def byteOps : List ℕ := [0x1a, 0x0b]

/-- The `shift_ops` list (SHL, SHR, SAR). -/
def shiftOps : List ℕ := [0x1b, 0x1c, 0x1d]

/-- The `comparison_ops` list. -/
def comparisonOps : List ℕ := [0x10, 0x11, 0x12, 0x13, 0x14]

/-- The `iszero_ops` list. -/
def iszeroOps : List ℕ := [0x15]

/-- The `simple_nullary_ops` list of pg_validation. -/
def simpleNullaryOps : List ℕ :=
  [0x30, 0x32, 0x33, 0x34, 0x38, 0x3a, 0x41, 0x42, 0x43, 0x44, 0x45, 0x46, 0x47, 0x58, 0x59, 0x5a]

/-- The `pop_ops` list of pg_validation. -/
def popOps : List ℕ := [0x50]

/-- The `jumpdest_ops` list of pg_validation. -/
def jumpdestOps : List ℕ := [0x5b]

/-- The `push_ops` list of pg_validation (PUSH1 .. PUSH32). -/
def pushOps : List ℕ := (List.range 32).map (fun i => 0x60 + i)

/-- The `dup_ops` list of pg_validation (DUP1 .. DUP16). -/
def dupOps : List ℕ := (List.range 16).map (fun i => 0x80 + i)

/-- The `swap_ops` list of pg_validation (SWAP1 .. SWAP16). -/
def swapOps : List ℕ := (List.range 16).map (fun i => 0x90 + i)

/-- The `memory_ops` list of pg_validation. -/
def memoryOps : List ℕ := [0x35, 0x36, 0x37, 0x39, 0x51]

/-- The `mstore_ops` list of pg_validation. -/
def mstoreOps : List ℕ := [0x52, 0x53]

/-- The `jump_ops` list of pg_validation. -/
def jumpOps : List ℕ := [0x56, 0x57]

/-- The `returndata_ops` list of pg_validation. -/
def returndataOps : List ℕ := [0x3d]

/-- The `all_ops` list of pg_arythmetic (its `_generate_random_arithmetic`). -/
def allOpsA : List ℕ :=
  arithmeticOps ++ expOps ++ bitwiseOps ++ byteOps ++ shiftOps ++ comparisonOps ++ iszeroOps

/-- An entry of pg_validation's `all_ops`: a concrete opcode byte or one of
the three synthetic class sentinels `PUSHclass` / `DUPclass` / `SWAPclass`. -/
inductive OpTok where
  | op (n : ℕ)
  | pushClass
  | dupClass
  | swapClass
deriving DecidableEq

/-- The concrete (non-class) prefix of pg_validation's `all_ops`, in source order. -/
def baseOpsV : List ℕ :=
  arithmeticOps ++ expOps ++ bitwiseOps ++ byteOps ++ shiftOps ++ comparisonOps ++ iszeroOps ++
  simpleNullaryOps ++ popOps ++ jumpdestOps ++ memoryOps ++ jumpOps ++ mstoreOps ++ returndataOps

/-- pg_validation's `all_ops`: the concrete selection followed by the three
class sentinels. -/
def allOpsV : List OpTok :=
  baseOpsV.map OpTok.op ++ [OpTok.pushClass, OpTok.dupClass, OpTok.swapClass]

/-- Every concrete opcode that `_resolve_op_class` can produce from a member
of `all_ops`. -/
def resolvedOpsV : List ℕ := baseOpsV ++ pushOps ++ dupOps ++ swapOps

/-- Modelled from the spec: `common.arity` (not part of `src/`) — the declared
input arity of an opcode, reduced by one for the jump family whose destination
operand is synthesized later by the jump/landing pattern ("JUMP AND JUMPI ...
have their arity (needed pushes) reduced"). -/
def arity (op : ℕ) : Int :=
  if op ∈ jumpOps then (opInfo op).removed - 1 else (opInfo op).removed

/-- One `bytecode +=` emission of a generator.  The final bytecode of a
program is the concatenation of the rendered chunks, so structural claims
about emitted instructions are claims about chunk lists. -/
inductive Chunk where
  /-- `_random_push(push)`: a PUSHw opcode followed by a `2*w`-digit immediate
  holding `v = random.getrandbits(8*w)`. -/
  | pushFull (w : ℕ) (v : ℕ)
  /-- `_random_push_less_32()`: PUSH1 of `v = random.randint(0, 31)`. -/
  | pushLess32 (v : ℕ)
  /-- `byte_size_push(2, v)`: PUSH2 of a two-byte immediate. -/
  | pushByteSize2 (v : ℕ)
  /-- a bare opcode byte, `operation['Value'][2:4]`. -/
  | opHex (op : ℕ)
  /-- the stored `operation['Parameter']` immediate emitted after a drawn
  push opcode. -/
  | param (op : ℕ)
  /-- the literal `'90'` (SWAP1) of the EXP pattern in pg_arythmetic. -/
  | swap1
  /-- one literal `'50'` (POP) of the clean-stack cleanup. -/
  | pop1
  /-- `jump_opcode_combo(bytecode, op)`: push of the destination, the jump
  opcode, and the JUMPDEST landing marker. -/
  | jumpComboC (tgt : ℕ) (op : ℕ)
  /-- `initial_mstore_bytecode()`. -/
  | preambleMstore
  /-- the final `'unreachable'` placeholder of pg_validation. -/
  | unreachableC
deriving DecidableEq

/-- The two hex characters of one opcode byte (`'Value'[2:4]` of a catalog
entry, always two zero-padded hex digits). -/
def byteHex (op : ℕ) : List Char := padLeft 2 (toHexL op)

/-- Modelled from the spec: `common.initial_mstore_bytecode` (not in `src/`)
is an opaque fixed memory-preallocation byte sequence; embedded as
PUSH32 0, PUSH2 0xffff, MSTORE. Only its hex-string nature and length matter
to the claims. -/
def preambleChars : List Char :=
  ['7','f'] ++ List.replicate 64 '0' ++ ['6','1','f','f','f','f','5','2']

/-- Modelled from the spec: `common.byte_size_push(2, v)` (not in `src/`) —
a PUSH2 whose immediate is big-endian and left-zero-padded to exactly the
declared two-byte width. -/
def byteSize2Chars (v : ℕ) : List Char := ['6','1'] ++ padLeft 4 (toHexL (v % 65536))

/-- Modelled from the spec: `common.jump_opcode_combo(bytecode, op)` (not in
`src/`) — a fixed pattern "push target, jump opcode, landing marker" counted
as three operations; the pushed target is the byte offset of the landing
JUMPDEST. -/
def jumpComboChars (tgt op : ℕ) : List Char :=
  byteSize2Chars tgt ++ byteHex op ++ ['5','b']

/-- The characters a chunk contributes to the bytecode string. -/
def Chunk.render : Chunk → List Char
  | pushFull w v => toHexL (0x60 + w - 1) ++ padLeft (2 * w) (toHexL v)
  | pushLess32 v => ['6','0'] ++ padLeft 2 (toHexL v)
  | pushByteSize2 v => byteSize2Chars v
  | opHex op => byteHex op
  | param op => List.replicate (2 * (op - 0x5f)) '0'
  | swap1 => ['9','0']
  | pop1 => ['5','0']
  | jumpComboC tgt op => jumpComboChars tgt op
  | preambleMstore => preambleChars
  | unreachableC => ['u','n','r','e','a','c','h','a','b','l','e']

/-- Concatenated bytecode of a chunk list — the generator's `bytecode`
variable. -/
def renderChunks (l : List Chunk) : List Char := (l.map Chunk.render).join

/-- Net effect of one chunk on virtual operand-stack occupancy, using the
declared `Removed from stack` / `Added to stack` arities of the catalog. -/
def Chunk.delta : Chunk → Int
  | pushFull _ _ => 1
  | pushLess32 _ => 1
  | pushByteSize2 _ => 1
  | opHex op => (opInfo op).added - (opInfo op).removed
  | param _ => 0
  | swap1 => 0
  | pop1 => -1
  | jumpComboC _ op => 1 + (opInfo op).added - (opInfo op).removed
  | preambleMstore => 0
  | unreachableC => 0

/-- Total virtual operand-stack occupancy change of a chunk list. -/
def chunksDelta (l : List Chunk) : Int := (l.map Chunk.delta).sum

/-- Well-formedness of an emitted chunk: push widths are in 1..32 and the
immediate values respect the bound their draw guarantees.  `unreachableC`
never appears in the loop-emitted chunks. -/
def Chunk.good : Chunk → Bool
  | pushFull w v => decide (1 ≤ w) && decide (w ≤ 32) && decide (v < 2 ^ (8 * w))
  | pushLess32 v => decide (v < 32)
  | unreachableC => false
  | _ => true

/-- The chunk is an operand push synthesized in front of an opcode. -/
def Chunk.isOperandPush : Chunk → Bool
  | pushFull _ _ => true
  | pushLess32 _ => true
  | pushByteSize2 _ => true
  | _ => false

/-- The resolved push width in bytes of a push-class emission (0 for
non-push chunks). -/
def Chunk.pushWidth : Chunk → ℕ
  | pushFull w _ => w
  | pushLess32 _ => 1
  | pushByteSize2 _ => 2
  | param op => op - 0x5f
  | jumpComboC _ _ => 2
  | _ => 0

/-- The immediate-width law for one chunk: the hex immediate that follows the
push opcode byte has length exactly `2 * pushWidth`. -/
def Chunk.immOk : Chunk → Bool
  | pushFull w v => decide ((padLeft (2 * w) (toHexL v)).length = 2 * w)
  | pushLess32 v => decide ((padLeft 2 (toHexL v)).length = 2)
  | pushByteSize2 v => decide ((padLeft 4 (toHexL (v % 65536))).length = 4)
  | param op => decide ((List.replicate (2 * (op - 0x5f)) '0').length = 2 * (op - 0x5f))
  | jumpComboC tgt _ => decide ((padLeft 4 (toHexL (tgt % 65536))).length = 4)
  | _ => true

/-- Number of operand pushes in a chunk list. -/
def countPush (l : List Chunk) : ℕ := l.countP (fun c => c.isOperandPush)

theorem chunksDelta_append (a b : List Chunk) :
    chunksDelta (a ++ b) = chunksDelta a + chunksDelta b := by
  simp [chunksDelta]

theorem chunksDelta_replicate_pop (n : ℕ) :
    chunksDelta (List.replicate n Chunk.pop1) = -(n : Int) := by
  induction n with
  | zero => simp [chunksDelta]
  | succ n ih =>
    rw [List.replicate_succ]
    simp only [chunksDelta, List.map_cons, List.sum_cons] at ih ⊢
    rw [ih, show Chunk.pop1.delta = -1 from rfl]
    push_cast
    ring

theorem good_immOk (c : Chunk) (h : c.good = true) : c.immOk = true := by
  cases c with
  | pushFull w v =>
    simp only [Chunk.good, Bool.and_eq_true, decide_eq_true_eq] at h
    obtain ⟨⟨h1, h2⟩, h3⟩ := h
    simp only [Chunk.immOk, decide_eq_true_eq]
    apply padLeft_length
    apply toHexL_length
    · calc v < 2 ^ (8 * w) := h3
        _ = 16 ^ (2 * w) := by
          rw [show 8 * w = 4 * (2 * w) by ring, pow_mul]
          norm_num
    · omega
    · omega
  | pushLess32 v =>
    simp only [Chunk.good, decide_eq_true_eq] at h
    simp only [Chunk.immOk, decide_eq_true_eq]
    apply padLeft_length
    apply toHexL_length
    · calc v < 32 := h
        _ ≤ 16 ^ 2 := by norm_num
    · omega
    · omega
  | pushByteSize2 v =>
    simp only [Chunk.immOk, decide_eq_true_eq]
    apply padLeft_length
    apply toHexL_length
    · calc v % 65536 < 65536 := Nat.mod_lt _ (by norm_num)
        _ = 16 ^ 4 := by norm_num
    · omega
    · omega
  | jumpComboC tgt op =>
    simp only [Chunk.immOk, decide_eq_true_eq]
    apply padLeft_length
    apply toHexL_length
    · calc tgt % 65536 < 65536 := Nat.mod_lt _ (by norm_num)
        _ = 16 ^ 4 := by norm_num
    · omega
    · omega
  | param op => simp [Chunk.immOk]
  | opHex op => rfl
  | swap1 => rfl
  | pop1 => rfl
  | preambleMstore => rfl
  | unreachableC => simp [Chunk.good] at h

theorem good_render_hex (c : Chunk) (h : c.good = true) :
    ∀ x ∈ c.render, x ∈ hexChars := by
  cases c with
  | pushFull w v =>
    intro x hx
    simp only [Chunk.render] at hx
    rcases List.mem_append.mp hx with h1 | h1
    · exact toHexL_hex _ _ h1
    · exact padLeft_hex _ _ (toHexL_hex _) _ h1
  | pushLess32 v =>
    intro x hx
    simp only [Chunk.render] at hx
    rcases List.mem_append.mp hx with h1 | h1
    · fin_cases h1 <;> decide
    · exact padLeft_hex _ _ (toHexL_hex _) _ h1
  | pushByteSize2 v =>
    intro x hx
    simp only [Chunk.render, byteSize2Chars] at hx
    rcases List.mem_append.mp hx with h1 | h1
    · fin_cases h1 <;> decide
    · exact padLeft_hex _ _ (toHexL_hex _) _ h1
  | opHex op =>
    intro x hx
    simp only [Chunk.render, byteHex] at hx
    exact padLeft_hex _ _ (toHexL_hex _) _ hx
  | param op =>
    intro x hx
    simp only [Chunk.render] at hx
    rw [List.eq_of_mem_replicate hx]
    decide
  | swap1 =>
    intro x hx
    simp only [Chunk.render] at hx
    fin_cases hx <;> decide
  | pop1 =>
    intro x hx
    simp only [Chunk.render] at hx
    fin_cases hx <;> decide
  | jumpComboC tgt op =>
    intro x hx
    simp only [Chunk.render, jumpComboChars, byteSize2Chars, byteHex,
      List.append_assoc, List.mem_append] at hx
    rcases hx with h1 | h1 | h1 | h1
    · fin_cases h1 <;> decide
    · exact padLeft_hex _ _ (toHexL_hex _) _ h1
    · exact padLeft_hex _ _ (toHexL_hex _) _ h1
    · fin_cases h1 <;> decide
  | preambleMstore =>
    intro x hx
    simp only [Chunk.render, preambleChars, List.append_assoc, List.mem_append] at hx
    rcases hx with h1 | h1 | h1
    · fin_cases h1 <;> decide
    · rw [List.eq_of_mem_replicate h1]
      decide
    · fin_cases h1 <;> decide
  | unreachableC => simp [Chunk.good] at h

theorem renderChunks_hex (l : List Chunk) (h : ∀ c ∈ l, c.good = true) :
    ∀ x ∈ renderChunks l, x ∈ hexChars := by
  intro x hx
  simp only [renderChunks, List.mem_join, List.mem_map] at hx
  obtain ⟨s, ⟨c, hc, rfl⟩, hxs⟩ := hx
  exact good_render_hex c (h c hc) x hxs

/-- The random stream: the n-th primitive draw of Python's seeded `random`
module. A fixed seed fixes the whole stream. -/
abbrev Rng := ℕ → ℕ

/-- `random.random() < 0.5`: a fair coin read from one stream value. -/
def coin (x : ℕ) : Bool := x % 2 == 0

/-- `random.choice(l)` for opcode lists. -/
def choiceN (l : List ℕ) (x : ℕ) : ℕ := l.getD (x % l.length) 0

/-- `random.choice(all_ops)` of pg_validation. -/
def choiceTok (l : List OpTok) (x : ℕ) : OpTok := l.getD (x % l.length) (OpTok.op 0)

/-- `random.getrandbits(w)`. -/
def getrandbits (w x : ℕ) : ℕ := x % 2 ^ w

/-- `random.randint(a, b)` for the nonnegative ranges the generators use. -/
def randintN (a b x : ℕ) : ℕ := a + x % (b + 1 - a)

theorem choiceN_mem (l : List ℕ) (x : ℕ) (h : l ≠ []) : choiceN l x ∈ l := by
  unfold choiceN
  have hlen : 0 < l.length := List.length_pos.mpr h
  have hx : x % l.length < l.length := Nat.mod_lt _ hlen
  rw [List.getD_eq_getElem l 0 hx]
  exact List.getElem_mem hx

theorem choiceTok_mem (l : List OpTok) (x : ℕ) (h : l ≠ []) : choiceTok l x ∈ l := by
  unfold choiceTok
  have hlen : 0 < l.length := List.length_pos.mpr h
  have hx : x % l.length < l.length := Nat.mod_lt _ hlen
  rw [List.getD_eq_getElem _ _ hx]
  exact List.getElem_mem hx

/-- Configuration of one `_generate_random_arithmetic` call of pg_validation
(the arguments of the source function, with `dominant` already resolved by
`generate` to a concrete member of `all_ops` or `None`). -/
structure VCfg where
  opsLimit : Option Int
  bytecodeLimit : Option Int
  dominant : Option OpTok
  pushMax : Int
  cleanStack : Bool
  randomizePush : Bool
deriving DecidableEq

/-- Mutable state of pg_validation's generation loop: the emitted chunks
(`bytecode`), `ops_count`, `previous_nreturns` and the stream position. -/
structure VState where
  chunks : List Chunk
  opsCount : Int
  prevN : Int
  pos : ℕ
deriving DecidableEq

/-- Python truthiness of an optional integer limit: `not limit` is true for
`None` and for `0`. -/
def pyFalsy : Option Int → Bool
  | none => true
  | some v => v == 0

/-- `not limit or counter < limit` of the loop condition. -/
def limitOkOps (lim : Option Int) (v : Int) : Bool :=
  pyFalsy lim || decide (v < lim.getD 0)

/-- `not bytecodeLimit or len(bytecode) < 2*bytecodeLimit`. -/
def limitOkBytes (lim : Option Int) (len : ℕ) : Bool :=
  pyFalsy lim || decide ((len : Int) < 2 * lim.getD 0)

/-- Python truthiness of the `dominant` argument (`if dominant:`): `None` and
the opcode `0` are falsy. -/
def OpTok.truthy : OpTok → Bool
  | OpTok.op n => n != 0
  | _ => true

/-- `_resolve_op_class`: class sentinels resolve by a fresh uniform draw from
the family list; concrete opcodes resolve to themselves without a draw. -/
def resolveTok (r : Rng) (pos : ℕ) : OpTok → ℕ × ℕ
  | OpTok.op n => (n, pos)
  | OpTok.pushClass => (choiceN pushOps (r pos), pos + 1)
  | OpTok.dupClass => (choiceN dupOps (r pos), pos + 1)
  | OpTok.swapClass => (choiceN swapOps (r pos), pos + 1)

/-- The opcode draw at the top of pg_validation's loop: with a (truthy)
dominant, a coin decides between the dominant token and a uniform draw; the
token is then resolved through `_resolve_op_class`. -/
def vDrawOp (cfg : VCfg) (r : Rng) (pos : ℕ) : ℕ × ℕ :=
  let (tok, pos1) :=
    match cfg.dominant with
    | some d =>
      if d.truthy then
        if coin (r pos) then (d, pos + 1) else (choiceTok allOpsV (r (pos + 1)), pos + 2)
      else (choiceTok allOpsV (r pos), pos + 1)
    | none => (choiceTok allOpsV (r pos), pos + 1)
  resolveTok r pos1 tok

/-- `_random_push(pushMax, randomizePush)` of pg_validation: the width is
`pushMax`, or drawn uniformly from 1..pushMax when `randomizePush`. -/
def randomPushV (pushMaxN : ℕ) (randomize : Bool) (r : Rng) (pos : ℕ) : Chunk × ℕ :=
  if randomize then
    let w := randintN 1 pushMaxN (r pos)
    (Chunk.pushFull w (getrandbits (8 * w) (r (pos + 1))), pos + 2)
  else
    (Chunk.pushFull pushMaxN (getrandbits (8 * pushMaxN) (r pos)), pos + 1)

/-- A sequence of `n` full-width random pushes (the list comprehension over
`range(needed_pushes)`). -/
def randomPushesV (pushMaxN : ℕ) (randomize : Bool) (r : Rng) : ℕ → ℕ → List Chunk × ℕ
  | pos, 0 => ([], pos)
  | pos, n+1 =>
    let (c, pos1) := randomPushV pushMaxN randomize r pos
    let (cs, pos2) := randomPushesV pushMaxN randomize r pos1 n
    (c :: cs, pos2)

/-- A sequence of `n` two-byte bounded pushes for the memory family
(`byte_size_push(2, random.randint(0, (1<<14) - 1))`). -/
def byteSizePushes (r : Rng) : ℕ → ℕ → List Chunk × ℕ
  | pos, 0 => ([], pos)
  | pos, n+1 =>
    let c := Chunk.pushByteSize2 (randintN 0 16383 (r pos))
    let (cs, pos') := byteSizePushes r (pos + 1) n
    (c :: cs, pos')

/-- Failure modes of pg_validation: the `raise ValueError(pushMax)` guard and
the `assert cleanStack` of the memory/mstore branches.  The assertion failure
records the bytecode chunks already synthesized when it fires. -/
inductive VErr where
  | badPush (p : Int)
  | badDominant
  | assertCleanStack (partialChunks : List Chunk)
deriving DecidableEq

/-- The operand-synthesis branches of pg_validation's loop body (lines
205-225): byte family, shift family, memory family (asserts `cleanStack`),
mstore family (asserts `cleanStack`), and the generic full-width-push branch
that also serves EXP, the jumps, and every remaining opcode. -/
def vOperands (cfg : VCfg) (r : Rng) (pos : ℕ) (op : ℕ) (needed : Int) (prev : Int) :
    Except Unit (List Chunk × ℕ) :=
  let pM := cfg.pushMax.toNat
  if op ∈ byteOps then
    let (c1, pos1) :=
      if cfg.cleanStack || prev == 0 then
        let (c, p') := randomPushV pM cfg.randomizePush r pos
        ([c], p')
      else ([], pos)
    Except.ok (c1 ++ [Chunk.pushLess32 (randintN 0 31 (r pos1))], pos1 + 1)
  else if op ∈ shiftOps then
    let (c1, pos1) :=
      if cfg.cleanStack || prev == 0 then
        let (c, p') := randomPushV pM cfg.randomizePush r pos
        ([c], p')
      else ([], pos)
    Except.ok (c1 ++ [Chunk.pushFull 1 (getrandbits 8 (r pos1))], pos1 + 1)
  else if op ∈ memoryOps then
    if cfg.cleanStack then Except.ok (byteSizePushes r pos needed.toNat)
    else Except.error ()
  else if op ∈ mstoreOps then
    if cfg.cleanStack then
      let (c, pos1) := randomPushV pM cfg.randomizePush r pos
      Except.ok ([c, Chunk.pushByteSize2 (randintN 0 16383 (r pos1))], pos1 + 1)
    else Except.error ()
  else
    Except.ok (randomPushesV pM cfg.randomizePush r pos needed.toNat)

/-- One full iteration body of pg_validation's loop, after the opcode has
been drawn and resolved: operand pushes, the opcode byte (or the jump
pattern, whose pushed target is the byte offset just past the pattern's
PUSH2 and jump opcode), the stored push parameter, and the clean-stack POPs.
Returns the appended chunks, the `ops_count` delta, the new
`previous_nreturns` and the new stream position. -/
def vBlock (cfg : VCfg) (r : Rng) (pos : ℕ) (op : ℕ) (prev : Int) (cur : List Chunk) :
    Except Unit (List Chunk × Int × Int × ℕ) :=
  let info := opInfo op
  let nreturns : Int := info.added
  let needed : Int := if cfg.cleanStack then arity op else arity op - prev
  match vOperands cfg r pos op needed prev with
  | Except.error () => Except.error ()
  | Except.ok (pushC, pos2) =>
    let (chunks2, dOps2) :=
      if op ∈ jumpOps then
        let tgt := (renderChunks (cur ++ pushC)).length / 2 + 4
        (pushC ++ [Chunk.jumpComboC tgt op], needed + 3)
      else (pushC ++ [Chunk.opHex op], needed + 1)
    let chunks3 := if op ∈ pushOps then chunks2 ++ [Chunk.param op] else chunks2
    if cfg.cleanStack then
      Except.ok (chunks3 ++ List.replicate nreturns.toNat Chunk.pop1, dOps2 + nreturns, prev, pos2)
    else
      Except.ok (chunks3, dOps2, nreturns, pos2)

/-- One iteration of pg_validation's `while` loop: draw and resolve an
opcode, then run the loop body. -/
def iterV (cfg : VCfg) (r : Rng) (st : VState) : Except VErr VState :=
  let (op, pos1) := vDrawOp cfg r st.pos
  match vBlock cfg r pos1 op st.prevN st.chunks with
  | Except.error () => Except.error (VErr.assertCleanStack st.chunks)
  | Except.ok (blk, dOps, prev2, pos2) =>
    Except.ok ⟨st.chunks ++ blk, st.opsCount + dOps, prev2, pos2⟩

/-- The loop-entry condition of pg_validation:
`(not opsLimit or ops_count < opsLimit) and (not bytecodeLimit or len(bytecode) < 2*bytecodeLimit)`. -/
def condV (cfg : VCfg) (st : VState) : Bool :=
  limitOkOps cfg.opsLimit st.opsCount &&
  limitOkBytes cfg.bytecodeLimit (renderChunks st.chunks).length

/-- Result of running pg_validation's loop with bounded fuel: normal exit,
an uncaught exception, or fuel exhausted with the loop still running (the
Python loop has no fuel; `fuelOut` exposes the still-running intermediate
state). -/
inductive VRes where
  | ok (st : VState)
  | fail (e : VErr)
  | fuelOut (st : VState)
deriving DecidableEq

/-- Is the fuel exhausted? -/
def VRes.isFuelOut : VRes → Bool
  | VRes.fuelOut _ => true
  | _ => false

/-- pg_validation's generation loop (lines 186-245), fuelled. -/
def loopV (cfg : VCfg) (r : Rng) : ℕ → VState → VRes
  | 0, st => if condV cfg st then VRes.fuelOut st else VRes.ok st
  | fuel+1, st =>
    if condV cfg st then
      match iterV cfg r st with
      | Except.error e => VRes.fail e
      | Except.ok st' => loopV cfg r fuel st'
    else VRes.ok st

/-- The chunks emitted before the loop: the memory-preallocation preamble and
the mandatory initial `jump_opcode_combo(bytecode, "56")`. -/
def vInitChunks : List Chunk :=
  [Chunk.preambleMstore,
   Chunk.jumpComboC ((renderChunks [Chunk.preambleMstore]).length / 2 + 4) 0x56]

/-- The loop-entry state of `_generate_random_arithmetic` of pg_validation:
preamble emitted, `ops_count = 0`, `previous_nreturns = 0`. -/
def vInit (pos : ℕ) : VState := ⟨vInitChunks, 0, 0, pos⟩

/-- The `Program` object of pg_validation (bytecode string and the dominant;
the source stores the dominant's mnemonic string, the embedding keeps the
token itself). -/
structure ProgramV where
  bytecode : List Char
  dominant : Option OpTok
deriving DecidableEq

/-- Result of one `_generate_random_arithmetic` call of pg_validation. -/
inductive VOut where
  | ok (p : ProgramV) (pos : ℕ)
  | fail (e : VErr)
  | fuelOut
deriving DecidableEq

/-- `_generate_random_arithmetic` of pg_validation: validate the push width,
emit the preamble, run the loop, and append the `'unreachable'` placeholder
to whatever the loop produced. -/
def generateOneV (cfg : VCfg) (r : Rng) (fuel : ℕ) (pos : ℕ) : VOut :=
  if cfg.pushMax < 1 ∨ 32 < cfg.pushMax then VOut.fail (VErr.badPush cfg.pushMax)
  else
    match loopV cfg r fuel (vInit pos) with
    | VRes.ok st =>
      VOut.ok ⟨renderChunks (st.chunks ++ [Chunk.unreachableC]), cfg.dominant⟩ st.pos
    | VRes.fail e => VOut.fail e
    | VRes.fuelOut _ => VOut.fuelOut

/-- `random.randint(a, b)` over signed bounds, used by `randomizeOpsLimit`. -/
def randintI (a b : Int) (x : ℕ) : Int := a + (x : Int) % (b + 1 - a)

/-- The `dominant` CLI argument of pg_validation's `generate`: absent, the
string `'random'`, or an opcode/class token. -/
inductive Dom where
  | noneD
  | randomD
  | tokD (t : OpTok)
deriving DecidableEq

/-- Python truthiness of the driver's `dominant` argument. -/
def Dom.truthy : Dom → Bool
  | Dom.noneD => false
  | Dom.randomD => true
  | Dom.tokD t => t.truthy

/-- The driver guard `if dominant and dominant != 'random' and dominant not
in all_ops: raise ValueError(dominant)`: true when the configuration passes. -/
def domValidV (d : Dom) : Bool :=
  match d with
  | Dom.tokD t => !t.truthy || decide (t ∈ allOpsV)
  | _ => true

/-- The arguments of pg_validation's `generate` entrypoint (output-format
arguments excluded; the seed is the choice of stream). -/
structure VDriverCfg where
  count : ℕ
  opsLimit : Option Int
  bytecodeLimit : Option Int
  dom : Dom
  pushMax : Int
  cleanStack : Bool
  randomizePush : Bool
  randomizeOpsLimit : Bool
deriving DecidableEq

/-- `if not opsLimit and not bytecodeLimit: opsLimit = 100` of pg_validation's
`generate`. -/
def effOpsLimitV (opsLimit bytecodeLimit : Option Int) : Option Int :=
  if pyFalsy opsLimit && pyFalsy bytecodeLimit then some 100 else opsLimit

/-- Result of a whole batch run. -/
inductive DRes where
  | ok (ps : List ProgramV)
  | fail (e : VErr)
  | fuelOut
deriving DecidableEq

/-- The per-program batch loop of pg_validation's `generate`: per program,
optionally randomize the operations limit up to the configured maximum,
resolve `dominant='random'` to one fixed opcode for the whole program, and
run `_generate_random_arithmetic`; an exception aborts the whole batch. -/
def genListV (bytecodeLimit : Option Int) (dom : Dom) (pushMax : Int)
    (cleanStack randomizePush randomizeOpsLimit : Bool) (opsLimitMax : Option Int)
    (r : Rng) (fuel : ℕ) : ℕ → ℕ → DRes
  | 0, _ => DRes.ok []
  | k+1, pos =>
    let (opsL, pos1) :=
      if randomizeOpsLimit then (some (randintI 1 (opsLimitMax.getD 0) (r pos)), pos + 1)
      else (opsLimitMax, pos)
    let (domTok, pos2) :=
      match dom with
      | Dom.randomD =>
        let t := choiceTok allOpsV (r pos1)
        let (o, p') := resolveTok r (pos1 + 1) t
        (some (OpTok.op o), p')
      | Dom.tokD t => (some t, pos1)
      | Dom.noneD => (none, pos1)
    match generateOneV ⟨opsL, bytecodeLimit, domTok, pushMax, cleanStack, randomizePush⟩ r fuel pos2 with
    | VOut.ok p pos3 =>
      match genListV bytecodeLimit dom pushMax cleanStack randomizePush randomizeOpsLimit
          opsLimitMax r fuel k pos3 with
      | DRes.ok ps => DRes.ok (p :: ps)
      | e => e
    | VOut.fail e => DRes.fail e
    | VOut.fuelOut => DRes.fuelOut

/-- `generate` of pg_validation: apply the default limit, validate the
dominant argument, then produce `count` programs from the one advancing
stream. -/
def generateV (d : VDriverCfg) (r : Rng) (fuel : ℕ) : DRes :=
  if !domValidV d.dom then DRes.fail VErr.badDominant
  else
    genListV d.bytecodeLimit d.dom d.pushMax d.cleanStack d.randomizePush d.randomizeOpsLimit
      (effOpsLimitV d.opsLimit d.bytecodeLimit) r fuel d.count 0

/-- Failure modes of pg_arythmetic: `raise ValueError(push)` and
`raise ValueError(dominant)`. -/
inductive AErr where
  | badPush (p : Int)
  | badDominant
deriving DecidableEq

/-- Configuration of one `_generate_random_arithmetic` call of
pg_arythmetic. -/
structure ACfg where
  gasLimit : Option Int
  opsLimit : Option Int
  bytecodeLimit : Option Int
  dominant : Option ℕ
  push : Int
  cleanStack : Bool
deriving DecidableEq

/-- Mutable loop state of pg_arythmetic: emitted chunks (`bytecode`),
`ops_count`, `gas` and the stream position. -/
structure AState where
  chunks : List Chunk
  opsCount : Int
  gas : Int
  pos : ℕ
deriving DecidableEq

/-- Python truthiness of pg_arythmetic's `dominant` argument. -/
def aDominantTruthy : Option ℕ → Bool
  | none => false
  | some d => d != 0

/-- The opcode draw of pg_arythmetic's loop. -/
def aDrawOp (cfg : ACfg) (r : Rng) (pos : ℕ) : ℕ × ℕ :=
  match cfg.dominant with
  | some d =>
    if d != 0 then
      if coin (r pos) then (d, pos + 1) else (choiceN allOpsA (r (pos + 1)), pos + 2)
    else (choiceN allOpsA (r pos), pos + 1)
  | none => (choiceN allOpsA (r pos), pos + 1)

/-- `n` consecutive `_random_push(push)` draws of pg_arythmetic. -/
def fullPushesA (pN : ℕ) (r : Rng) : ℕ → ℕ → List Chunk × ℕ
  | pos, 0 => ([], pos)
  | pos, n+1 =>
    let c := Chunk.pushFull pN (getrandbits (8 * pN) (r pos))
    let (cs, pos') := fullPushesA pN r (pos + 1) n
    (c :: cs, pos')

/-- The loop body of pg_arythmetic (lines 150-183) for a drawn opcode: the
clean-stack warm-up push, the per-family operand synthesis (the EXP branch
pushes a one-byte exponent and a SWAP1 accounted as one extra operation with
gas 3), the opcode byte, and the clean-stack POP. Returns the appended
chunks, the `ops_count` delta, the `gas` delta and the new stream
position. -/
def aBlock (cfg : ACfg) (r : Rng) (pos : ℕ) (op : ℕ) : List Chunk × Int × Int × ℕ :=
  let info := opInfo op
  let pN := cfg.push.toNat
  let (cleanC, dOps0, dGas0, pos0) :=
    if cfg.cleanStack then
      ([Chunk.pushFull pN (getrandbits (8 * pN) (r pos))], (1 : Int), (3 : Int), pos + 1)
    else ([], 0, 0, pos)
  let needed : Int := info.removed - 1
  let (operandC, dOps1, dGas1, pos1) :=
    if op ∈ arithmeticOps ∨ op ∈ bitwiseOps ∨ op ∈ comparisonOps then
      let (cs, p') := fullPushesA pN r pos0 needed.toNat
      (cs, dOps0, dGas0, p')
    else if op ∈ expOps then
      ([Chunk.pushFull 1 (getrandbits 8 (r pos0)), Chunk.swap1], dOps0 + 1, dGas0 + 3, pos0 + 1)
    else if op ∈ byteOps then
      ([Chunk.pushLess32 (randintN 0 31 (r pos0))], dOps0, dGas0, pos0 + 1)
    else if op ∈ shiftOps then
      ([Chunk.pushFull 1 (getrandbits 8 (r pos0))], dOps0, dGas0, pos0 + 1)
    else ([], dOps0, dGas0, pos0)
  let dOps2 := dOps1 + needed + 1
  let dGas2 := dGas1 + 3 * needed + (if op ∈ expOps then 60 else info.gas)
  if cfg.cleanStack then
    (cleanC ++ operandC ++ [Chunk.opHex op, Chunk.pop1], dOps2 + 1, dGas2 + 2, pos1)
  else
    (cleanC ++ operandC ++ [Chunk.opHex op], dOps2, dGas2, pos1)

/-- One iteration of pg_arythmetic's `while` loop. -/
def iterA (cfg : ACfg) (r : Rng) (st : AState) : AState :=
  let (op, pos1) := aDrawOp cfg r st.pos
  let (blk, dOps, dGas, pos2) := aBlock cfg r pos1 op
  ⟨st.chunks ++ blk, st.opsCount + dOps, st.gas + dGas, pos2⟩

/-- The loop-entry condition of pg_arythmetic (line 141). -/
def condA (cfg : ACfg) (st : AState) : Bool :=
  limitOkOps cfg.gasLimit st.gas && limitOkOps cfg.opsLimit st.opsCount &&
  limitOkBytes cfg.bytecodeLimit (renderChunks st.chunks).length

/-- Result of running pg_arythmetic's loop with bounded fuel. -/
inductive ARes where
  | ok (st : AState)
  | fuelOut (st : AState)
deriving DecidableEq

/-- Is the fuel exhausted? -/
def ARes.isFuelOut : ARes → Bool
  | ARes.fuelOut _ => true
  | _ => false

/-- pg_arythmetic's generation loop (lines 141-183), fuelled. -/
def loopA (cfg : ACfg) (r : Rng) : ℕ → AState → ARes
  | 0, st => if condA cfg st then ARes.fuelOut st else ARes.ok st
  | fuel+1, st =>
    if condA cfg st then loopA cfg r fuel (iterA cfg r st)
    else ARes.ok st

/-- The `Program` object of pg_arythmetic: bytecode and
`measured_op_position` (the final `ops_count`). -/
structure ProgramA where
  bytecode : List Char
  measuredOpPosition : Int
deriving DecidableEq

/-- Result of one `_generate_random_arithmetic` call of pg_arythmetic. -/
inductive AOut where
  | ok (p : ProgramA) (pos : ℕ)
  | fail (e : AErr)
  | fuelOut
deriving DecidableEq

/-- The loop-entry state of pg_arythmetic: with the Carry discipline one
warm-up `_random_push(push)` is emitted with `ops_count = 1`, `gas = 3`. -/
def aInit (cfg : ACfg) (r : Rng) (pos : ℕ) : AState :=
  if cfg.cleanStack then ⟨[], 0, 0, pos⟩
  else ⟨[Chunk.pushFull cfg.push.toNat (getrandbits (8 * cfg.push.toNat) (r pos))], 1, 3, pos + 1⟩

/-- `_generate_random_arithmetic` of pg_arythmetic: validate the push width,
emit the Carry warm-up push, validate the dominant opcode, run the loop. -/
def generateOneA (cfg : ACfg) (r : Rng) (fuel pos : ℕ) : AOut :=
  if cfg.push < 1 ∨ 32 < cfg.push then AOut.fail (AErr.badPush cfg.push)
  else
    let st0 := aInit cfg r pos
    if aDominantTruthy cfg.dominant && !(decide (cfg.dominant.getD 0 ∈ allOpsA)) then
      AOut.fail AErr.badDominant
    else
      match loopA cfg r fuel st0 with
      | ARes.ok st => AOut.ok ⟨renderChunks st.chunks, st.opsCount⟩ st.pos
      | ARes.fuelOut _ => AOut.fuelOut

/-- The arguments of pg_arythmetic's `generate` entrypoint. -/
structure ADriverCfg where
  count : ℕ
  gasLimit : Option Int
  opsLimit : Option Int
  bytecodeLimit : Option Int
  dominant : Option ℕ
  push : Int
  cleanStack : Bool
deriving DecidableEq

/-- `if not gasLimit and not opsLimit and not bytecodeLimit: opsLimit = 100`
of pg_arythmetic's `generate`. -/
def effOpsLimitA (gasLimit opsLimit bytecodeLimit : Option Int) : Option Int :=
  if pyFalsy gasLimit && pyFalsy opsLimit && pyFalsy bytecodeLimit then some 100 else opsLimit

/-- Result of a whole pg_arythmetic batch run. -/
inductive ADRes where
  | ok (ps : List ProgramA)
  | fail (e : AErr)
  | fuelOut
deriving DecidableEq

/-- Did the batch run return normally? -/
def ADRes.isOk : ADRes → Bool
  | ADRes.ok _ => true
  | _ => false

/-- The per-program batch loop of pg_arythmetic's `generate`. -/
def genListA (gasLimit opsLimit bytecodeLimit : Option Int) (dominant : Option ℕ)
    (push : Int) (cleanStack : Bool) (r : Rng) (fuel : ℕ) : ℕ → ℕ → ADRes
  | 0, _ => ADRes.ok []
  | k+1, pos =>
    match generateOneA ⟨gasLimit, opsLimit, bytecodeLimit, dominant, push, cleanStack⟩ r fuel pos with
    | AOut.ok p pos' =>
      match genListA gasLimit opsLimit bytecodeLimit dominant push cleanStack r fuel k pos' with
      | ADRes.ok ps => ADRes.ok (p :: ps)
      | e => e
    | AOut.fail e => ADRes.fail e
    | AOut.fuelOut => ADRes.fuelOut

/-- `generate` of pg_arythmetic: apply the default limit, then produce
`count` programs from the one advancing stream. -/
def generateA (d : ADriverCfg) (r : Rng) (fuel : ℕ) : ADRes :=
  genListA d.gasLimit (effOpsLimitA d.gasLimit d.opsLimit d.bytecodeLimit) d.bytecodeLimit
    d.dominant d.push d.cleanStack r fuel d.count 0

theorem renderChunks_append (a b : List Chunk) :
    renderChunks (a ++ b) = renderChunks a ++ renderChunks b := by
  simp [renderChunks]

theorem randomPushV_delta (pM : ℕ) (rz : Bool) (r : Rng) (pos : ℕ) :
    (randomPushV pM rz r pos).1.delta = 1 := by
  unfold randomPushV
  split <;> rfl

theorem randomPushV_isPush (pM : ℕ) (rz : Bool) (r : Rng) (pos : ℕ) :
    (randomPushV pM rz r pos).1.isOperandPush = true := by
  unfold randomPushV
  split <;> rfl

theorem randomPushV_good (pM : ℕ) (rz : Bool) (r : Rng) (pos : ℕ)
    (h1 : 1 ≤ pM) (h2 : pM ≤ 32) : (randomPushV pM rz r pos).1.good = true := by
  unfold randomPushV
  split
  · simp only [Chunk.good, Bool.and_eq_true, decide_eq_true_eq]
    have hw1 : 1 ≤ randintN 1 pM (r pos) := Nat.le_add_right _ _
    have hw2 : randintN 1 pM (r pos) ≤ pM := by
      unfold randintN
      have := Nat.mod_lt (r pos) (show 0 < pM + 1 - 1 by omega)
      omega
    refine ⟨⟨hw1, by omega⟩, ?_⟩
    exact Nat.mod_lt _ (Nat.pos_pow_of_pos _ (by norm_num))
  · simp only [Chunk.good, Bool.and_eq_true, decide_eq_true_eq]
    refine ⟨⟨h1, h2⟩, ?_⟩
    exact Nat.mod_lt _ (Nat.pos_pow_of_pos _ (by norm_num))

theorem randomPushesV_succ (pM : ℕ) (rz : Bool) (r : Rng) (pos n : ℕ) :
    randomPushesV pM rz r pos (n+1) =
      ((randomPushV pM rz r pos).1 ::
        (randomPushesV pM rz r (randomPushV pM rz r pos).2 n).1,
       (randomPushesV pM rz r (randomPushV pM rz r pos).2 n).2) := rfl

theorem countPush_cons (c : Chunk) (l : List Chunk) :
    countPush (c :: l) = countPush l + (if c.isOperandPush then 1 else 0) := by
  simp [countPush, List.countP_cons]

theorem countPush_append (a b : List Chunk) :
    countPush (a ++ b) = countPush a + countPush b := by
  simp [countPush, List.countP_append]

theorem countPush_randomPushesV (pM : ℕ) (rz : Bool) (r : Rng) :
    ∀ n pos, countPush (randomPushesV pM rz r pos n).1 = n := by
  intro n
  induction n with
  | zero => intro pos; rfl
  | succ n ih =>
    intro pos
    rw [randomPushesV_succ]
    simp only [countPush_cons, ih, randomPushV_isPush, if_pos]

theorem chunksDelta_cons (c : Chunk) (l : List Chunk) :
    chunksDelta (c :: l) = c.delta + chunksDelta l := by
  simp [chunksDelta]

theorem chunksDelta_randomPushesV (pM : ℕ) (rz : Bool) (r : Rng) :
    ∀ n pos, chunksDelta (randomPushesV pM rz r pos n).1 = n := by
  intro n
  induction n with
  | zero => intro pos; rfl
  | succ n ih =>
    intro pos
    rw [randomPushesV_succ, chunksDelta_cons, randomPushV_delta, ih]
    push_cast
    ring

theorem randomPushesV_good (pM : ℕ) (rz : Bool) (r : Rng) (h1 : 1 ≤ pM) (h2 : pM ≤ 32) :
    ∀ n pos, ∀ c ∈ (randomPushesV pM rz r pos n).1, c.good = true := by
  intro n
  induction n with
  | zero => intro pos c hc; cases hc
  | succ n ih =>
    intro pos c hc
    rw [randomPushesV_succ] at hc
    rcases List.mem_cons.mp hc with h | h
    · subst h
      exact randomPushV_good _ _ _ _ h1 h2
    · exact ih _ _ h

theorem byteSizePushes_succ (r : Rng) (pos n : ℕ) :
    byteSizePushes r pos (n+1) =
      (Chunk.pushByteSize2 (randintN 0 16383 (r pos)) :: (byteSizePushes r (pos + 1) n).1,
       (byteSizePushes r (pos + 1) n).2) := rfl

theorem chunksDelta_byteSizePushes (r : Rng) :
    ∀ n pos, chunksDelta (byteSizePushes r pos n).1 = n := by
  intro n
  induction n with
  | zero => intro pos; rfl
  | succ n ih =>
    intro pos
    rw [byteSizePushes_succ, chunksDelta_cons, ih]
    show 1 + (n : Int) = ((n : ℕ) + 1 : ℕ)
    push_cast
    ring

theorem byteSizePushes_good (r : Rng) :
    ∀ n pos, ∀ c ∈ (byteSizePushes r pos n).1, c.good = true := by
  intro n
  induction n with
  | zero => intro pos c hc; cases hc
  | succ n ih =>
    intro pos c hc
    rw [byteSizePushes_succ] at hc
    rcases List.mem_cons.mp hc with h | h
    · subst h; rfl
    · exact ih _ _ h

theorem countPush_byteSizePushes (r : Rng) :
    ∀ n pos, countPush (byteSizePushes r pos n).1 = n := by
  intro n
  induction n with
  | zero => intro pos; rfl
  | succ n ih =>
    intro pos
    rw [byteSizePushes_succ, countPush_cons, ih]
    rfl

theorem fullPushesA_succ (pN : ℕ) (r : Rng) (pos n : ℕ) :
    fullPushesA pN r pos (n+1) =
      (Chunk.pushFull pN (getrandbits (8 * pN) (r pos)) :: (fullPushesA pN r (pos + 1) n).1,
       (fullPushesA pN r (pos + 1) n).2) := rfl

theorem chunksDelta_fullPushesA (pN : ℕ) (r : Rng) :
    ∀ n pos, chunksDelta (fullPushesA pN r pos n).1 = n := by
  intro n
  induction n with
  | zero => intro pos; rfl
  | succ n ih =>
    intro pos
    rw [fullPushesA_succ, chunksDelta_cons, ih]
    show 1 + (n : Int) = ((n : ℕ) + 1 : ℕ)
    push_cast
    ring

theorem fullPushesA_good (pN : ℕ) (r : Rng) (h1 : 1 ≤ pN) (h2 : pN ≤ 32) :
    ∀ n pos, ∀ c ∈ (fullPushesA pN r pos n).1, c.good = true := by
  intro n
  induction n with
  | zero => intro pos c hc; cases hc
  | succ n ih =>
    intro pos c hc
    rw [fullPushesA_succ] at hc
    rcases List.mem_cons.mp hc with h | h
    · subst h
      simp only [Chunk.good, Bool.and_eq_true, decide_eq_true_eq]
      exact ⟨⟨h1, h2⟩, Nat.mod_lt _ (Nat.pos_pow_of_pos _ (by norm_num))⟩
    · exact ih _ _ h

theorem countPush_single (c : Chunk) : countPush [c] = if c.isOperandPush then 1 else 0 := by
  simp [countPush, List.countP_cons, List.countP_nil]

theorem vBlock_eq (cfg : VCfg) (r : Rng) (pos : ℕ) (op : ℕ) (prev : Int) (cur : List Chunk)
    (pushC : List Chunk) (pos2 : ℕ)
    (h : vOperands cfg r pos op (if cfg.cleanStack then arity op else arity op - prev) prev =
      Except.ok (pushC, pos2)) :
    vBlock cfg r pos op prev cur =
      (let needed : Int := if cfg.cleanStack then arity op else arity op - prev
       let x := if op ∈ jumpOps then
           (pushC ++ [Chunk.jumpComboC ((renderChunks (cur ++ pushC)).length / 2 + 4) op],
            needed + 3)
         else (pushC ++ [Chunk.opHex op], needed + 1)
       let chunks3 := if op ∈ pushOps then x.1 ++ [Chunk.param op] else x.1
       if cfg.cleanStack then
         Except.ok (chunks3 ++ List.replicate (opInfo op).added.toNat Chunk.pop1,
           x.2 + (opInfo op).added, prev, pos2)
       else Except.ok (chunks3, x.2, (opInfo op).added, pos2)) := by
  unfold vBlock
  simp only [h]

theorem vBlock_err (cfg : VCfg) (r : Rng) (pos : ℕ) (op : ℕ) (prev : Int) (cur : List Chunk)
    (h : vOperands cfg r pos op (if cfg.cleanStack then arity op else arity op - prev) prev =
      Except.error ()) :
    vBlock cfg r pos op prev cur = Except.error () := by
  unfold vBlock
  simp only [h]

theorem vOperands_generic (cfg : VCfg) (r : Rng) (pos : ℕ) (op : ℕ) (needed : Int) (prev : Int)
    (h1 : op ∉ byteOps) (h2 : op ∉ shiftOps) (h3 : op ∉ memoryOps) (h4 : op ∉ mstoreOps) :
    vOperands cfg r pos op needed prev =
      Except.ok (randomPushesV cfg.pushMax.toNat cfg.randomizePush r pos needed.toNat) := by
  unfold vOperands
  rw [if_neg h1, if_neg h2, if_neg h3, if_neg h4]

theorem vOperands_byte (cfg : VCfg) (r : Rng) (pos : ℕ) (op : ℕ) (needed : Int) (prev : Int)
    (h : op ∈ byteOps) :
    vOperands cfg r pos op needed prev =
      (let c1p := if cfg.cleanStack || prev == 0
         then ([(randomPushV cfg.pushMax.toNat cfg.randomizePush r pos).1],
               (randomPushV cfg.pushMax.toNat cfg.randomizePush r pos).2)
         else ([], pos)
       Except.ok (c1p.1 ++ [Chunk.pushLess32 (randintN 0 31 (r c1p.2))], c1p.2 + 1)) := by
  unfold vOperands
  rw [if_pos h]

theorem vOperands_shift (cfg : VCfg) (r : Rng) (pos : ℕ) (op : ℕ) (needed : Int) (prev : Int)
    (h : op ∈ shiftOps) (hx : op ∉ byteOps) :
    vOperands cfg r pos op needed prev =
      (let c1p := if cfg.cleanStack || prev == 0
         then ([(randomPushV cfg.pushMax.toNat cfg.randomizePush r pos).1],
               (randomPushV cfg.pushMax.toNat cfg.randomizePush r pos).2)
         else ([], pos)
       Except.ok (c1p.1 ++ [Chunk.pushFull 1 (getrandbits 8 (r c1p.2))], c1p.2 + 1)) := by
  unfold vOperands
  rw [if_neg hx, if_pos h]

theorem vOperands_memory (cfg : VCfg) (r : Rng) (pos : ℕ) (op : ℕ) (needed : Int) (prev : Int)
    (h : op ∈ memoryOps) (hx : op ∉ byteOps) (hy : op ∉ shiftOps) :
    vOperands cfg r pos op needed prev =
      (if cfg.cleanStack then Except.ok (byteSizePushes r pos needed.toNat)
       else Except.error ()) := by
  unfold vOperands
  rw [if_neg hx, if_neg hy, if_pos h]

theorem vOperands_mstore (cfg : VCfg) (r : Rng) (pos : ℕ) (op : ℕ) (needed : Int) (prev : Int)
    (h : op ∈ mstoreOps) (hx : op ∉ byteOps) (hy : op ∉ shiftOps) (hz : op ∉ memoryOps) :
    vOperands cfg r pos op needed prev =
      (if cfg.cleanStack then
        Except.ok ([(randomPushV cfg.pushMax.toNat cfg.randomizePush r pos).1,
          Chunk.pushByteSize2 (randintN 0 16383
            (r (randomPushV cfg.pushMax.toNat cfg.randomizePush r pos).2))],
          (randomPushV cfg.pushMax.toNat cfg.randomizePush r pos).2 + 1)
       else Except.error ()) := by
  unfold vOperands
  rw [if_neg hx, if_neg hy, if_neg hz, if_pos h]

/-- C1: for every fixed configuration tuple (seed/stream, flavor, limits,
dominant configuration, push policy, stack discipline), two independent runs
of program generation — of either flavor — produce identical output: the
same bytecode for every program of the batch. The generators are functions
of the configuration and the sequentially advanced random stream alone. -/
theorem c1_determinism :
    (∀ (d₁ d₂ : VDriverCfg) (r₁ r₂ : Rng) (fuel : ℕ), d₁ = d₂ → (∀ n, r₁ n = r₂ n) →
      generateV d₁ r₁ fuel = generateV d₂ r₂ fuel) ∧
    (∀ (d₁ d₂ : ADriverCfg) (r₁ r₂ : Rng) (fuel : ℕ), d₁ = d₂ → (∀ n, r₁ n = r₂ n) →
      generateA d₁ r₁ fuel = generateA d₂ r₂ fuel) := by
  constructor
  · intro d₁ d₂ r₁ r₂ fuel hd hr
    subst hd
    rw [funext hr]
  · intro d₁ d₂ r₁ r₂ fuel hd hr
    subst hd
    rw [funext hr]

/-- Witness for C1 at a concrete configuration and stream. -/
theorem c1_determinism_witness :
    generateV ⟨1, some 5, none, Dom.noneD, 32, false, false, false⟩ (fun _ => 0) 10 =
      generateV ⟨1, some 5, none, Dom.noneD, 32, false, false, false⟩ (fun _ => 0) 10 :=
  c1_determinism.1 _ _ _ _ 10 rfl (fun _ => rfl)

/-- C9: when no limit at all is configured, both generators fall back to an
implicit default of exactly 100 operations: the defaulting step yields
`opsLimit = 100`, and a batch run with no limits behaves identically to one
with `opsLimit = 100` configured explicitly. -/
theorem c9_default_limit :
    effOpsLimitV none none = some 100 ∧ effOpsLimitA none none none = some 100 ∧
    (∀ (d : VDriverCfg) (r : Rng) (fuel : ℕ), d.opsLimit = none → d.bytecodeLimit = none →
      generateV d r fuel = generateV { d with opsLimit := some 100 } r fuel) ∧
    (∀ (d : ADriverCfg) (r : Rng) (fuel : ℕ),
      d.gasLimit = none → d.opsLimit = none → d.bytecodeLimit = none →
      generateA d r fuel = generateA { d with opsLimit := some 100 } r fuel) := by
  refine ⟨rfl, rfl, ?_, ?_⟩
  · intro d r fuel h1 h2
    obtain ⟨count, opsL, bytesL, dom, pushM, clean, rp, rol⟩ := d
    simp only at h1 h2
    subst h1
    subst h2
    rfl
  · intro d r fuel h0 h1 h2
    obtain ⟨count, gasL, opsL, bytesL, dominant, push, clean⟩ := d
    simp only at h0 h1 h2
    subst h0
    subst h1
    subst h2
    rfl

/-- Witness for C9 at a concrete no-limit configuration. -/
theorem c9_default_limit_witness :
    generateA ⟨1, none, none, none, none, 32, false⟩ (fun _ => 0) 101 =
      generateA ⟨1, none, none, none, none, 32, false⟩ (fun _ => 0) 101 ∧
    generateA ⟨1, none, none, none, none, 32, false⟩ (fun _ => 0) 101 =
      generateA ⟨1, none, some 100, none, none, 32, false⟩ (fun _ => 0) 101 :=
  ⟨rfl, c9_default_limit.2.2.2 ⟨1, none, none, none, none, 32, false⟩ (fun _ => 0) 101 rfl rfl rfl⟩

/-- C6 counterexample: a negative operations limit is not rejected — the
batch call returns normally (the loop body never runs, and the program
consists of the Carry warm-up push alone), refuting "rejected at
configuration time". -/
theorem c6_counterexample :
    (generateA ⟨1, none, some (-5), none, none, 32, false⟩ (fun _ => 0) 1).isOk = true := by
  decide

theorem limitOkOps_neg (L v : Int) (hL : L < 0) (hv : 0 ≤ v) :
    limitOkOps (some L) v = false := by
  unfold limitOkOps pyFalsy
  show ((L == 0) || decide (v < (some L).getD 0)) = false
  have h1 : (L == 0) = false := by
    simp only [beq_eq_false_iff_ne, ne_eq]
    omega
  have h2 : decide (v < (some L).getD 0) = false := by
    rw [decide_eq_false_iff_not]
    show ¬(v < L)
    omega
  rw [h1, h2]
  rfl

theorem limitOkBytes_neg (B : Int) (len : ℕ) (hB : B < 0) :
    limitOkBytes (some B) len = false := by
  unfold limitOkBytes pyFalsy
  show ((B == 0) || decide ((len : Int) < 2 * (some B).getD 0)) = false
  have h1 : (B == 0) = false := by
    simp only [beq_eq_false_iff_ne, ne_eq]
    omega
  have h2 : decide ((len : Int) < 2 * (some B).getD 0) = false := by
    rw [decide_eq_false_iff_not]
    show ¬((len : Int) < 2 * B)
    omega
  rw [h1, h2]
  rfl

theorem loopA_exit (cfg : ACfg) (r : Rng) (fuel : ℕ) (st : AState)
    (hc : condA cfg st = false) : loopA cfg r fuel st = ARes.ok st := by
  cases fuel with
  | zero => simp [loopA, hc]
  | succ f => simp [loopA, hc]

theorem loopV_exit (cfg : VCfg) (r : Rng) (fuel : ℕ) (st : VState)
    (hc : condV cfg st = false) : loopV cfg r fuel st = VRes.ok st := by
  cases fuel with
  | zero => simp [loopV, hc]
  | succ f => simp [loopV, hc]

/-- C6 amended: neither generator rejects a zero or negative limit. A
negative limit of any kind — operations, gas or bytecode — passes
configuration unrejected and makes the generation loop return its entry
state before the first iteration, yielding a minimal program, in both
generators. A zero limit is Python-falsy: it contributes to the
default-100 fallback exactly like an absent limit, and when another limit
is configured it is silently ignored (its loop check is vacuously true
for every counter value). -/
theorem c6_amended :
    (∀ (cfg : ACfg) (r : Rng) (fuel : ℕ) (st : AState) (L : Int),
      cfg.opsLimit = some L → L < 0 → 0 ≤ st.opsCount → loopA cfg r fuel st = ARes.ok st) ∧
    (∀ (cfg : ACfg) (r : Rng) (fuel : ℕ) (st : AState) (G : Int),
      cfg.gasLimit = some G → G < 0 → 0 ≤ st.gas → loopA cfg r fuel st = ARes.ok st) ∧
    (∀ (cfg : ACfg) (r : Rng) (fuel : ℕ) (st : AState) (B : Int),
      cfg.bytecodeLimit = some B → B < 0 → loopA cfg r fuel st = ARes.ok st) ∧
    (∀ (cfg : VCfg) (r : Rng) (fuel : ℕ) (st : VState) (L : Int),
      cfg.opsLimit = some L → L < 0 → 0 ≤ st.opsCount → loopV cfg r fuel st = VRes.ok st) ∧
    (∀ (cfg : VCfg) (r : Rng) (fuel : ℕ) (st : VState) (B : Int),
      cfg.bytecodeLimit = some B → B < 0 → loopV cfg r fuel st = VRes.ok st) ∧
    effOpsLimitA (some 0) none none = some 100 ∧
    effOpsLimitA none (some 0) none = some 100 ∧
    effOpsLimitA none none (some 0) = some 100 ∧
    effOpsLimitV (some 0) none = some 100 ∧
    effOpsLimitV none (some 0) = some 100 ∧
    (∀ v : Int, limitOkOps (some 0) v = true) ∧
    (∀ len : ℕ, limitOkBytes (some 0) len = true) := by
  refine ⟨?_, ?_, ?_, ?_, ?_, rfl, rfl, rfl, rfl, rfl, fun v => rfl, fun len => rfl⟩
  · intro cfg r fuel st L hops hL hst
    apply loopA_exit
    unfold condA
    rw [hops, limitOkOps_neg L st.opsCount hL hst]
    simp
  · intro cfg r fuel st G hgas hG hst
    apply loopA_exit
    unfold condA
    rw [hgas, limitOkOps_neg G st.gas hG hst]
    simp
  · intro cfg r fuel st B hbytes hB
    apply loopA_exit
    unfold condA
    rw [hbytes, limitOkBytes_neg B _ hB]
    simp
  · intro cfg r fuel st L hops hL hst
    apply loopV_exit
    unfold condV
    rw [hops, limitOkOps_neg L st.opsCount hL hst]
    simp
  · intro cfg r fuel st B hbytes hB
    apply loopV_exit
    unfold condV
    rw [hbytes, limitOkBytes_neg B _ hB]
    simp

/-- Witness for C6 amended: a negative operations limit makes each
generator's loop return its entry state unchanged. -/
theorem c6_amended_witness :
    loopA ⟨none, some (-5), none, none, 32, false⟩ (fun _ => 0) 7 ⟨[], 0, 0, 0⟩ =
      ARes.ok ⟨[], 0, 0, 0⟩ ∧
    loopV ⟨some (-3), none, none, 32, false, false⟩ (fun _ => 0) 5 (vInit 0) =
      VRes.ok (vInit 0) :=
  ⟨c6_amended.1 ⟨none, some (-5), none, none, 32, false⟩ (fun _ => 0) 7 ⟨[], 0, 0, 0⟩ (-5)
      rfl (by decide) (by decide),
   c6_amended.2.2.2.1 ⟨some (-3), none, none, 32, false, false⟩ (fun _ => 0) 5 (vInit 0) (-3)
      rfl (by decide) (by decide)⟩

/-- C5 counterexample: with MLOAD dominant under the Carry discipline the
failure is an assertion raised in the generation loop, not a
configuration-time rejection: when it fires, the preamble bytes have already
been synthesized into the program under construction (the recorded partial
bytecode is nonempty). -/
theorem c5_counterexample :
    generateOneV ⟨some 1, none, some (OpTok.op 0x51), 32, false, false⟩ (fun _ => 0) 1 0 =
      VOut.fail (VErr.assertCleanStack [Chunk.preambleMstore, Chunk.jumpComboC 41 86]) ∧
    renderChunks [Chunk.preambleMstore, Chunk.jumpComboC 41 86] ≠ [] := by
  exact ⟨by decide, by decide⟩

/-- C5 amended: a memory-read or memory-write opcode drawn under the Carry
discipline raises an assertion failure during generation — after the
preamble and any earlier iterations were already synthesized — aborting the
program with no output produced; it is never silently downgraded. There is
no configuration-time check: the failure occurs only in the iteration that
actually draws the memory-family opcode. -/
theorem c5_amended (cfg : VCfg) (r : Rng) (st : VState)
    (hclean : cfg.cleanStack = false)
    (hmem : (vDrawOp cfg r st.pos).1 ∈ memoryOps ∨ (vDrawOp cfg r st.pos).1 ∈ mstoreOps) :
    iterV cfg r st = Except.error (VErr.assertCleanStack st.chunks) := by
  rcases hdraw : vDrawOp cfg r st.pos with ⟨op, pos1⟩
  rw [hdraw] at hmem
  have hvb : vBlock cfg r pos1 op st.prevN st.chunks = Except.error () := by
    rcases hmem with h | h
    · have hx : op ∉ byteOps ∧ op ∉ shiftOps := by
        fin_cases h <;> exact ⟨by decide, by decide⟩
      rw [vBlock_err]
      rw [vOperands_memory _ _ _ _ _ _ h hx.1 hx.2, if_neg]
      rw [hclean]
      exact Bool.false_ne_true
    · have hx : op ∉ byteOps ∧ op ∉ shiftOps ∧ op ∉ memoryOps := by
        fin_cases h <;> exact ⟨by decide, by decide, by decide⟩
      rw [vBlock_err]
      rw [vOperands_mstore _ _ _ _ _ _ h hx.1 hx.2.1 hx.2.2, if_neg]
      rw [hclean]
      exact Bool.false_ne_true
  simp only [iterV, hdraw, hvb]

/-- Witness for C5 amended: the MLOAD-dominant Carry iteration fails with
the partial chunks recorded. -/
theorem c5_amended_witness :
    iterV ⟨some 1, none, some (OpTok.op 0x51), 32, false, false⟩ (fun _ => 0) (vInit 0) =
      Except.error (VErr.assertCleanStack vInitChunks) :=
  c5_amended _ _ _ rfl (Or.inl (by decide))

/-- C2 counterexample: under Carry, iteration 1 draws DUP1 (leaving
`previous_nreturns = 2`) and iteration 2 draws BYTE (declared arity 2, so
the floored formula gives max(0, 2-2) = 0 pushes), yet the BYTE branch
still emits one bounded operand push (`PUSH1` of a value below 32), refuting
the claimed equality. -/
theorem c2_counterexample :
    loopV ⟨some 10, none, none, 32, false, false⟩ (fun i => [54, 0, 0, 14, 0].getD i 0) 2
        (vInit 0) =
      VRes.fuelOut ⟨[Chunk.preambleMstore, Chunk.jumpComboC 41 86, Chunk.pushFull 32 0,
        Chunk.opHex 128, Chunk.pushLess32 0, Chunk.opHex 26], 3, 1, 5⟩ ∧
    countPush [Chunk.pushLess32 0] = 1 ∧ (arity 26 - 2).toNat = 0 := by
  exact ⟨by decide, by decide, by decide⟩

/-- C2 amended: under Carry, `needed_pushes = arity - previous_nreturns`
without flooring. In the generic branch the number of synthesized operand
pushes is `max(0, arity - available)` as claimed; but the byte- and
shift-family branches always emit their bounded operand push and emit the
full-width push only when no value is carried, so they emit
`2` pushes when `previous_nreturns = 0` and `1` otherwise — which exceeds
the floored formula whenever more than one value is carried in. -/
theorem c2_amended (cfg : VCfg) (r : Rng) (pos : ℕ) (op : ℕ) (prev : Int) (cur : List Chunk)
    (hcarry : cfg.cleanStack = false) :
    (op ∉ byteOps → op ∉ shiftOps → op ∉ memoryOps → op ∉ mstoreOps →
      ∀ blk rest, vBlock cfg r pos op prev cur = Except.ok (blk, rest) →
        countPush blk = (arity op - prev).toNat) ∧
    ((op ∈ byteOps ∨ op ∈ shiftOps) →
      ∀ blk rest, vBlock cfg r pos op prev cur = Except.ok (blk, rest) →
        countPush blk = if prev == 0 then 2 else 1) := by
  constructor
  · intro h1 h2 h3 h4 blk rest heq
    rw [vBlock_eq _ _ _ _ _ _ _ _ (vOperands_generic _ _ _ _ _ _ h1 h2 h3 h4)] at heq
    simp only [hcarry, Bool.false_eq_true, if_false] at heq
    split_ifs at heq with hj hp
    · simp only [Except.ok.injEq, Prod.mk.injEq] at heq
      obtain ⟨hblk, -⟩ := heq
      subst hblk
      simp only [countPush_append, countPush_randomPushesV, countPush_single, countPush_cons]
      simp [countPush, List.countP_nil, Chunk.isOperandPush]
    · simp only [Except.ok.injEq, Prod.mk.injEq] at heq
      obtain ⟨hblk, -⟩ := heq
      subst hblk
      simp only [countPush_append, countPush_randomPushesV, countPush_single, countPush_cons]
      simp [countPush, List.countP_nil, Chunk.isOperandPush]
    · simp only [Except.ok.injEq, Prod.mk.injEq] at heq
      obtain ⟨hblk, -⟩ := heq
      subst hblk
      simp only [countPush_append, countPush_randomPushesV, countPush_single, countPush_cons]
      simp [countPush, List.countP_nil, Chunk.isOperandPush]
    · simp only [Except.ok.injEq, Prod.mk.injEq] at heq
      obtain ⟨hblk, -⟩ := heq
      subst hblk
      simp only [countPush_append, countPush_randomPushesV, countPush_single, countPush_cons]
      simp [countPush, List.countP_nil, Chunk.isOperandPush]
  · intro hbs blk rest heq
    rcases hbs with h | h
    · have hj : op ∉ jumpOps := by fin_cases h <;> decide
      have hp : op ∉ pushOps := by fin_cases h <;> decide
      rw [vBlock_eq _ _ _ _ _ _ _ _ (vOperands_byte _ _ _ _ _ _ h)] at heq
      simp only [hcarry, Bool.false_eq_true, if_false, Bool.false_or, if_neg hj, if_neg hp] at heq
      split_ifs at heq with hz
      · simp only [Except.ok.injEq, Prod.mk.injEq] at heq
        obtain ⟨hblk, -⟩ := heq
        subst hblk
        rw [if_pos hz]
        simp only [countPush_append, countPush_single, countPush_cons]
        rw [randomPushV_isPush]
        simp [Chunk.isOperandPush, countPush]
      · simp only [Except.ok.injEq, Prod.mk.injEq] at heq
        obtain ⟨hblk, -⟩ := heq
        subst hblk
        rw [if_neg hz]
        simp only [countPush_append, countPush_single, countPush_cons]
        simp [Chunk.isOperandPush, countPush]
    · have hj : op ∉ jumpOps := by fin_cases h <;> decide
      have hp : op ∉ pushOps := by fin_cases h <;> decide
      have hx : op ∉ byteOps := by fin_cases h <;> decide
      rw [vBlock_eq _ _ _ _ _ _ _ _ (vOperands_shift _ _ _ _ _ _ h hx)] at heq
      simp only [hcarry, Bool.false_eq_true, if_false, Bool.false_or, if_neg hj, if_neg hp] at heq
      split_ifs at heq with hz
      · simp only [Except.ok.injEq, Prod.mk.injEq] at heq
        obtain ⟨hblk, -⟩ := heq
        subst hblk
        rw [if_pos hz]
        simp only [countPush_append, countPush_single, countPush_cons]
        rw [randomPushV_isPush]
        simp [Chunk.isOperandPush, countPush]
      · simp only [Except.ok.injEq, Prod.mk.injEq] at heq
        obtain ⟨hblk, -⟩ := heq
        subst hblk
        rw [if_neg hz]
        simp only [countPush_append, countPush_single, countPush_cons]
        simp [Chunk.isOperandPush, countPush]

/-- Witness for C2 amended: drawing ADD under Carry with no carried value
synthesizes exactly `max(0, 2 - 0) = 2` operand pushes. -/
theorem c2_amended_witness :
    countPush [Chunk.pushFull 32 0, Chunk.pushFull 32 0, Chunk.opHex 1] = (arity 1 - 0).toNat :=
  (c2_amended ⟨some 10, none, none, 32, false, false⟩ (fun _ => 0) 0 1 0 [] rfl).1
    (by decide) (by decide) (by decide) (by decide)
    [Chunk.pushFull 32 0, Chunk.pushFull 32 0, Chunk.opHex 1] (3, 1, 2) rfl

/-- C4 counterexample: the validation generator treats EXP generically — the
program it emits contains the EXP opcode immediately preceded by two
full-width pushes and contains no swap instruction at all, refuting the
claimed mandatory push/bounded-push/swap pattern for "every exponentiation
opcode emitted by a generator". -/
theorem c4_counterexample :
    loopV ⟨some 1, none, some (OpTok.op 0x0a), 32, false, false⟩ (fun _ => 0) 2 (vInit 0) =
      VRes.ok ⟨[Chunk.preambleMstore, Chunk.jumpComboC 41 86, Chunk.pushFull 32 0,
        Chunk.pushFull 32 0, Chunk.opHex 10], 3, 1, 3⟩ ∧
    Chunk.swap1 ∉ [Chunk.preambleMstore, Chunk.jumpComboC 41 86, Chunk.pushFull 32 0,
        Chunk.pushFull 32 0, Chunk.opHex 10] := by
  exact ⟨by decide, by decide⟩

/-- C4 amended: the push/bounded-push/swap exponent pattern belongs to the
arithmetic generator. There, under the Clean discipline, an EXP iteration
emits exactly: a full-width random push, a one-byte push whose value is
below 256, a SWAP1, the EXP opcode, and the cleanup POP — and the SWAP1 is
accounted as one extra operation (the block counts 5 operations) with its
own fixed gas cost of 3 (total block gas 3+3+3+60+2 = 71). Under Carry the
full-width push is absent (a carried value serves as the base), and the
validation generator emits no swap at all. -/
theorem c4_amended (cfg : ACfg) (r : Rng) (pos : ℕ) (hclean : cfg.cleanStack = true) :
    aBlock cfg r pos 0x0a =
      ([Chunk.pushFull cfg.push.toNat (getrandbits (8 * cfg.push.toNat) (r pos)),
        Chunk.pushFull 1 (getrandbits 8 (r (pos + 1))), Chunk.swap1,
        Chunk.opHex 0x0a, Chunk.pop1], 5, 71, pos + 2) ∧
    getrandbits 8 (r (pos + 1)) < 256 := by
  constructor
  · obtain ⟨gasL, opsL, bytesL, dominant, push, clean⟩ := cfg
    simp only at hclean
    subst hclean
    rfl
  · exact Nat.mod_lt _ (by norm_num)

/-- Witness for C4 amended at a concrete clean configuration. -/
theorem c4_amended_witness :
    aBlock ⟨none, some 10, none, none, 32, true⟩ (fun _ => 0) 0 0x0a =
      ([Chunk.pushFull 32 0, Chunk.pushFull 1 0, Chunk.swap1, Chunk.opHex 0x0a, Chunk.pop1],
        5, 71, 2) ∧ getrandbits 8 0 < 256 :=
  c4_amended ⟨none, some 10, none, none, 32, true⟩ (fun _ => 0) 0 rfl

/-- C7 counterexample: with `opsLimit = 2` under Carry, a stream that keeps
drawing ADDRESS makes the second iteration advance the bytecode but leave
`ops_count` unchanged at 1 — the per-iteration operation-count total fails
to make progress toward the limit. -/
theorem c7_counterexample :
    loopV ⟨some 2, none, none, 32, false, false⟩ (fun _ => 25) 1 (vInit 0) =
      VRes.fuelOut ⟨[Chunk.preambleMstore, Chunk.jumpComboC 41 86, Chunk.opHex 48], 1, 1, 1⟩ ∧
    loopV ⟨some 2, none, none, 32, false, false⟩ (fun _ => 25) 2 (vInit 0) =
      VRes.fuelOut ⟨[Chunk.preambleMstore, Chunk.jumpComboC 41 86, Chunk.opHex 48,
        Chunk.opHex 48], 1, 1, 2⟩ := by
  exact ⟨by decide, by decide⟩

/-- The valid-dominant precondition that pg_arythmetic's `generate`
establishes before the loop runs: absent, falsy, or a member of `all_ops`. -/
def aDominantOk (cfg : ACfg) : Bool :=
  match cfg.dominant with
  | none => true
  | some d => d == 0 || decide (d ∈ allOpsA)

theorem aDrawOp_mem (cfg : ACfg) (r : Rng) (pos : ℕ) (hdom : aDominantOk cfg = true) :
    (aDrawOp cfg r pos).1 ∈ allOpsA := by
  unfold aDrawOp
  rcases hd : cfg.dominant with _ | d
  · exact choiceN_mem _ _ (by decide)
  · simp only [aDominantOk, hd] at hdom
    show (if (d != 0) = true then
        (if coin (r pos) = true then (d, pos + 1)
         else (choiceN allOpsA (r (pos + 1)), pos + 2))
      else (choiceN allOpsA (r pos), pos + 1)).1 ∈ allOpsA
    by_cases hne : (d != 0) = true
    · rw [if_pos hne]
      by_cases hcoin : coin (r pos) = true
      · rw [if_pos hcoin]
        show d ∈ allOpsA
        rcases (Bool.or_eq_true _ _).mp hdom with h | h
        · rw [beq_iff_eq] at h
          rw [bne_iff_ne] at hne
          exact absurd h hne
        · exact of_decide_eq_true h
      · rw [if_neg hcoin]
        exact choiceN_mem _ _ (by decide)
    · rw [if_neg hne]
      exact choiceN_mem _ _ (by decide)

theorem aBlock_dOps (cfg : ACfg) (r : Rng) (pos : ℕ) (op : ℕ) (hop : op ∈ allOpsA) :
    1 ≤ (aBlock cfg r pos op).2.1 := by
  fin_cases hop <;> cases hc : cfg.cleanStack <;>
    simp [aBlock, hc, opInfo, arithmeticOps, bitwiseOps, comparisonOps, expOps, byteOps,
      shiftOps, iszeroOps]

theorem iterA_progress (cfg : ACfg) (r : Rng) (st : AState) (hdom : aDominantOk cfg = true) :
    st.opsCount + 1 ≤ (iterA cfg r st).opsCount := by
  have hop := aDrawOp_mem cfg r st.pos hdom
  have h1 := aBlock_dOps cfg r (aDrawOp cfg r st.pos).2 _ hop
  have h2 : (iterA cfg r st).opsCount =
      st.opsCount + (aBlock cfg r (aDrawOp cfg r st.pos).2 (aDrawOp cfg r st.pos).1).2.1 := rfl
  omega

theorem condA_ops_lt (cfg : ACfg) (st : AState) (L : Int) (hops : cfg.opsLimit = some L)
    (hL : 0 < L) (hc : condA cfg st = true) : st.opsCount < L := by
  unfold condA at hc
  rw [Bool.and_eq_true, Bool.and_eq_true] at hc
  obtain ⟨⟨-, h2⟩, -⟩ := hc
  unfold limitOkOps at h2
  rw [hops] at h2
  rcases (Bool.or_eq_true _ _).mp h2 with h | h
  · simp only [pyFalsy, beq_iff_eq] at h
    omega
  · have := of_decide_eq_true h
    simpa using this

theorem loopA_term (cfg : ACfg) (r : Rng) (L : Int) (hops : cfg.opsLimit = some L)
    (hL : 0 < L) (hdom : aDominantOk cfg = true) :
    ∀ (fuel : ℕ) (st : AState), (L - st.opsCount).toNat ≤ fuel →
      (loopA cfg r fuel st).isFuelOut = false := by
  intro fuel
  induction fuel with
  | zero =>
    intro st hf
    unfold loopA
    rcases hc : condA cfg st with _ | _
    · rw [if_neg]
      · rfl
      · exact Bool.false_ne_true
    · have hlt := condA_ops_lt cfg st L hops hL hc
      omega
  | succ f ih =>
    intro st hf
    unfold loopA
    rcases hc : condA cfg st with _ | _
    · rw [if_neg]
      · rfl
      · exact Bool.false_ne_true
    · rw [if_pos rfl]
      apply ih
      have hlt := condA_ops_lt cfg st L hops hL hc
      have hprog := iterA_progress cfg r st hdom
      omega

theorem loopV_carry_noprogress :
    ∀ (fuel : ℕ) (st : VState), st.opsCount = 1 → st.prevN = 1 →
      (loopV ⟨some 2, none, none, 32, false, false⟩ (fun _ => 25) fuel st).isFuelOut = true := by
  intro fuel
  induction fuel with
  | zero =>
    intro st h1 h2
    unfold loopV
    have hc : condV ⟨some 2, none, none, 32, false, false⟩ st = true := by
      unfold condV limitOkOps limitOkBytes pyFalsy
      rw [h1]
      rfl
    rw [if_pos (by rw [hc])]
    rfl
  | succ f ih =>
    intro st h1 h2
    have hstep : loopV ⟨some 2, none, none, 32, false, false⟩ (fun _ => 25) (f+1) st =
        loopV ⟨some 2, none, none, 32, false, false⟩ (fun _ => 25) f
          ⟨st.chunks ++ [Chunk.opHex 48], 1, 1, st.pos + 1⟩ := by
      obtain ⟨cs, ops, prev, p⟩ := st
      simp only at h1 h2
      subst h1
      subst h2
      rfl
    rw [hstep]
    exact ih _ rfl rfl

/-- C7 amended: the bounded-progress claim holds for the arithmetic
generator — with a configured positive operations limit L and a valid
dominant, every iteration adds at least one operation, so the loop completes
within L iterations. It fails for the validation generator under Carry:
there is a draw stream (repeatedly ADDRESS, with one carried value) whose
iterations add zero operations, so that loop never terminates for any
iteration bound. -/
theorem c7_amended :
    (∀ (cfg : ACfg) (r : Rng) (L : Int) (fuel : ℕ) (st : AState),
      cfg.opsLimit = some L → 0 < L → aDominantOk cfg = true →
      (L - st.opsCount).toNat ≤ fuel → (loopA cfg r fuel st).isFuelOut = false) ∧
    (∀ fuel : ℕ,
      (loopV ⟨some 2, none, none, 32, false, false⟩ (fun _ => 25) fuel
        (vInit 0)).isFuelOut = true) := by
  constructor
  · intro cfg r L fuel st hops hL hdom hf
    exact loopA_term cfg r L hops hL hdom fuel st hf
  · intro fuel
    cases fuel with
    | zero => decide
    | succ f =>
      have hstep : loopV ⟨some 2, none, none, 32, false, false⟩ (fun _ => 25) (f+1) (vInit 0) =
          loopV ⟨some 2, none, none, 32, false, false⟩ (fun _ => 25) f
            ⟨vInitChunks ++ [Chunk.opHex 48], 1, 1, 1⟩ := rfl
      rw [hstep]
      exact loopV_carry_noprogress f _ rfl rfl

/-- Witness for C7 amended: the arithmetic loop with limit 2 finishes within
fuel 2. -/
theorem c7_amended_witness :
    (loopA ⟨none, some 2, none, none, 32, false⟩ (fun _ => 0) 2 ⟨[], 0, 0, 0⟩).isFuelOut =
      false :=
  c7_amended.1 ⟨none, some 2, none, none, 32, false⟩ (fun _ => 0) 2 2 ⟨[], 0, 0, 0⟩ rfl
    (by decide) (by decide) (by decide)

/-- Both declared arities of the catalog are nonnegative for every opcode
byte. -/
theorem opInfo_nonneg (op : ℕ) : 0 ≤ (opInfo op).removed ∧ 0 ≤ (opInfo op).added := by
  unfold opInfo
  split_ifs with h1 h2 h3 <;>
    first
    | (constructor <;> dsimp only <;> omega)
    | (split <;> constructor <;> dsimp only <;> omega)

/-- The operand/opcode/cleanup balance of the generic branch under Clean,
for every opcode byte outside the jump family (including every opcode a
dominant configuration could inject). -/
theorem generic_balance (op : ℕ) (hj : op ∉ jumpOps) :
    (((arity op).toNat : Int) + ((opInfo op).added - (opInfo op).removed)
      - ((opInfo op).added.toNat : Int) = 0) := by
  obtain ⟨hr, ha⟩ := opInfo_nonneg op
  unfold arity
  rw [if_neg hj]
  omega

theorem chunksDelta_nil : chunksDelta [] = 0 := rfl

theorem vBlock_delta_clean (cfg : VCfg) (r : Rng) (pos : ℕ) (op : ℕ) (prev : Int)
    (cur : List Chunk) (hclean : cfg.cleanStack = true)
    (blk : List Chunk) (rest : Int × Int × ℕ)
    (heq : vBlock cfg r pos op prev cur = Except.ok (blk, rest)) :
    chunksDelta blk = 0 := by
  by_cases hb : op ∈ byteOps
  · rw [vBlock_eq _ _ _ _ _ _ _ _ (vOperands_byte _ _ _ _ _ _ hb)] at heq
    have hj : op ∉ jumpOps := by fin_cases hb <;> decide
    have hp : op ∉ pushOps := by fin_cases hb <;> decide
    simp only [hclean, Bool.true_or, eq_self_iff_true, if_true, if_neg hj, if_neg hp] at heq
    simp only [Except.ok.injEq, Prod.mk.injEq] at heq
    obtain ⟨hblk, -⟩ := heq
    subst hblk
    fin_cases hb <;>
      (simp only [chunksDelta_append, chunksDelta_cons, chunksDelta_nil,
         chunksDelta_replicate_pop, randomPushV_delta]
       simp [Chunk.delta, opInfo]
       try omega)
  · by_cases hs : op ∈ shiftOps
    · rw [vBlock_eq _ _ _ _ _ _ _ _ (vOperands_shift _ _ _ _ _ _ hs hb)] at heq
      have hj : op ∉ jumpOps := by fin_cases hs <;> decide
      have hp : op ∉ pushOps := by fin_cases hs <;> decide
      simp only [hclean, Bool.true_or, eq_self_iff_true, if_true, if_neg hj, if_neg hp] at heq
      simp only [Except.ok.injEq, Prod.mk.injEq] at heq
      obtain ⟨hblk, -⟩ := heq
      subst hblk
      fin_cases hs <;>
        (simp only [chunksDelta_append, chunksDelta_cons, chunksDelta_nil,
           chunksDelta_replicate_pop, randomPushV_delta]
         simp [Chunk.delta, opInfo]
         try omega)
    · by_cases hm : op ∈ memoryOps
      · have hvo : vOperands cfg r pos op
            (if cfg.cleanStack then arity op else arity op - prev) prev =
            Except.ok (byteSizePushes r pos
              (if cfg.cleanStack then arity op else arity op - prev).toNat) := by
          rw [vOperands_memory _ _ _ _ _ _ hm hb hs, if_pos hclean]
        rw [vBlock_eq _ _ _ _ _ _ _ _ hvo] at heq
        have hj : op ∉ jumpOps := by fin_cases hm <;> decide
        have hp : op ∉ pushOps := by fin_cases hm <;> decide
        simp only [hclean, eq_self_iff_true, if_true, if_neg hj, if_neg hp] at heq
        simp only [Except.ok.injEq, Prod.mk.injEq] at heq
        obtain ⟨hblk, -⟩ := heq
        subst hblk
        fin_cases hm <;>
          (simp only [chunksDelta_append, chunksDelta_cons, chunksDelta_nil,
             chunksDelta_byteSizePushes, chunksDelta_replicate_pop]
           simp [Chunk.delta, opInfo, arity, jumpOps]
           try omega)
      · by_cases hms : op ∈ mstoreOps
        · have hvo : vOperands cfg r pos op
              (if cfg.cleanStack then arity op else arity op - prev) prev =
              Except.ok ([(randomPushV cfg.pushMax.toNat cfg.randomizePush r pos).1,
                Chunk.pushByteSize2 (randintN 0 16383
                  (r (randomPushV cfg.pushMax.toNat cfg.randomizePush r pos).2))],
                (randomPushV cfg.pushMax.toNat cfg.randomizePush r pos).2 + 1) := by
            rw [vOperands_mstore _ _ _ _ _ _ hms hb hs hm, if_pos hclean]
          rw [vBlock_eq _ _ _ _ _ _ _ _ hvo] at heq
          have hj : op ∉ jumpOps := by fin_cases hms <;> decide
          have hp : op ∉ pushOps := by fin_cases hms <;> decide
          simp only [hclean, eq_self_iff_true, if_true, if_neg hj, if_neg hp] at heq
          simp only [Except.ok.injEq, Prod.mk.injEq] at heq
          obtain ⟨hblk, -⟩ := heq
          subst hblk
          fin_cases hms <;>
            (simp only [chunksDelta_append, chunksDelta_cons, chunksDelta_nil,
               chunksDelta_replicate_pop, randomPushV_delta]
             simp [Chunk.delta, opInfo]
             try omega)
        · rw [vBlock_eq _ _ _ _ _ _ _ _ (vOperands_generic _ _ _ _ _ _ hb hs hm hms)] at heq
          simp only [hclean, eq_self_iff_true, if_true] at heq
          by_cases hj : op ∈ jumpOps
          · have hp : op ∉ pushOps := by fin_cases hj <;> decide
            simp only [if_pos hj, if_neg hp] at heq
            simp only [Except.ok.injEq, Prod.mk.injEq] at heq
            obtain ⟨hblk, -⟩ := heq
            subst hblk
            fin_cases hj <;>
              (simp only [chunksDelta_append, chunksDelta_cons, chunksDelta_nil,
                 chunksDelta_randomPushesV, chunksDelta_replicate_pop]
               simp [Chunk.delta, opInfo, arity, jumpOps]
               try omega)
          · have hbal := generic_balance op hj
            by_cases hp : op ∈ pushOps
            · simp only [if_neg hj, if_pos hp] at heq
              simp only [Except.ok.injEq, Prod.mk.injEq] at heq
              obtain ⟨hblk, -⟩ := heq
              subst hblk
              simp only [chunksDelta_append, chunksDelta_cons, chunksDelta_nil,
                chunksDelta_randomPushesV, chunksDelta_replicate_pop]
              simp only [Chunk.delta]
              linarith [hbal]
            · simp only [if_neg hj, if_neg hp] at heq
              simp only [Except.ok.injEq, Prod.mk.injEq] at heq
              obtain ⟨hblk, -⟩ := heq
              subst hblk
              simp only [chunksDelta_append, chunksDelta_cons, chunksDelta_nil,
                chunksDelta_randomPushesV, chunksDelta_replicate_pop]
              simp only [Chunk.delta]
              linarith [hbal]

theorem aBlock_delta_clean (cfg : ACfg) (r : Rng) (pos : ℕ) (op : ℕ) (hop : op ∈ allOpsA)
    (hclean : cfg.cleanStack = true) : chunksDelta (aBlock cfg r pos op).1 = 0 := by
  fin_cases hop <;>
    (simp only [aBlock, hclean, eq_self_iff_true, if_true]
     simp [arithmeticOps, bitwiseOps, comparisonOps, expOps, byteOps, shiftOps, iszeroOps,
       opInfo, fullPushesA, Int.toNat]
     simp only [chunksDelta_append, chunksDelta_cons, chunksDelta_nil]
     simp [Chunk.delta, opInfo]
     try omega)

theorem iterV_delta_clean (cfg : VCfg) (r : Rng) (st st' : VState)
    (hclean : cfg.cleanStack = true)
    (h : iterV cfg r st = Except.ok st') :
    chunksDelta st'.chunks = chunksDelta st.chunks := by
  rcases hdraw : vDrawOp cfg r st.pos with ⟨op, pos1⟩
  simp only [iterV, hdraw] at h
  rcases hvb : vBlock cfg r pos1 op st.prevN st.chunks with e | res
  · rw [hvb] at h
    cases h
  · rcases res with ⟨blk, rest⟩
    rw [hvb] at h
    simp only [Except.ok.injEq] at h
    subst h
    show chunksDelta (st.chunks ++ blk) = chunksDelta st.chunks
    rw [chunksDelta_append, vBlock_delta_clean cfg r pos1 op st.prevN st.chunks hclean blk
      rest hvb]
    ring

theorem iterA_delta_clean (cfg : ACfg) (r : Rng) (st : AState)
    (hclean : cfg.cleanStack = true) (hdom : aDominantOk cfg = true) :
    chunksDelta (iterA cfg r st).chunks = chunksDelta st.chunks := by
  have hop := aDrawOp_mem cfg r st.pos hdom
  have h2 : (iterA cfg r st).chunks =
      st.chunks ++ (aBlock cfg r (aDrawOp cfg r st.pos).2 (aDrawOp cfg r st.pos).1).1 := rfl
  rw [h2, chunksDelta_append,
    aBlock_delta_clean cfg r (aDrawOp cfg r st.pos).2 _ hop hclean]
  ring

/-- C8: under the Clean discipline the virtual operand-stack occupancy
(computed from the declared removed/added arities of every emitted
instruction) returns to exactly zero after each iteration's compensating
POPs: starting from a zero-balance state, every state the loop can be
observed in — its normal exit and every intermediate fuel-exhaustion
state — still has balance zero, for both generators. The validation side
holds for every configuration, whatever the per-program dominant resolves
to (including concrete PUSH/DUP/SWAP opcodes produced by
`dominant='random'`); the arithmetic side assumes only the dominant
precondition that `_generate_random_arithmetic` itself validates before
its loop (lines 138-139). -/
theorem c8_clean_stack_zero :
    (∀ (cfg : VCfg) (r : Rng) (fuel : ℕ) (st st' : VState),
      cfg.cleanStack = true → chunksDelta st.chunks = 0 →
      (loopV cfg r fuel st = VRes.ok st' ∨ loopV cfg r fuel st = VRes.fuelOut st') →
      chunksDelta st'.chunks = 0) ∧
    (∀ (cfg : ACfg) (r : Rng) (fuel : ℕ) (st st' : AState),
      cfg.cleanStack = true → aDominantOk cfg = true → chunksDelta st.chunks = 0 →
      (loopA cfg r fuel st = ARes.ok st' ∨ loopA cfg r fuel st = ARes.fuelOut st') →
      chunksDelta st'.chunks = 0) := by
  constructor
  · intro cfg r fuel
    induction fuel with
    | zero =>
      intro st st' hclean hz hres
      unfold loopV at hres
      rcases hres with h | h <;> split at h <;> cases h <;> exact hz
    | succ f ih =>
      intro st st' hclean hz hres
      unfold loopV at hres
      by_cases hc : condV cfg st = true
      · rw [if_pos hc] at hres
        rcases hiter : iterV cfg r st with e | st1
        · rw [hiter] at hres
          rcases hres with h | h <;> cases h
        · rw [hiter] at hres
          have hz1 : chunksDelta st1.chunks = 0 := by
            rw [iterV_delta_clean cfg r st st1 hclean hiter]
            exact hz
          exact ih st1 st' hclean hz1 hres
      · rw [if_neg hc] at hres
        rcases hres with h | h <;> cases h
        exact hz
  · intro cfg r fuel
    induction fuel with
    | zero =>
      intro st st' hclean hdom hz hres
      unfold loopA at hres
      rcases hres with h | h <;> split at h <;> cases h <;> exact hz
    | succ f ih =>
      intro st st' hclean hdom hz hres
      unfold loopA at hres
      by_cases hc : condA cfg st = true
      · rw [if_pos hc] at hres
        have hz1 : chunksDelta (iterA cfg r st).chunks = 0 := by
          rw [iterA_delta_clean cfg r st hclean hdom]
          exact hz
        exact ih (iterA cfg r st) st' hclean hdom hz1 hres
      · rw [if_neg hc] at hres
        rcases hres with h | h <;> cases h
        exact hz

/-- Witness for C8 at a concrete clean run of each generator. -/
theorem c8_clean_stack_zero_witness :
    chunksDelta (vInit 0).chunks = 0 ∧ chunksDelta ([] : List Chunk) = 0 :=
  ⟨c8_clean_stack_zero.1 ⟨some 1, none, some (OpTok.op 0x66), 32, true, false⟩ (fun _ => 0) 0
      (vInit 0) (vInit 0) rfl (by decide) (Or.inr (by decide)),
   c8_clean_stack_zero.2 ⟨none, some 1, none, none, 32, true⟩ (fun _ => 0) 0 ⟨[], 0, 0, 0⟩
      ⟨[], 0, 0, 0⟩ rfl rfl (by decide) (Or.inr (by decide))⟩

theorem good_append (a b : List Chunk) (ha : ∀ c ∈ a, c.good = true)
    (hb : ∀ c ∈ b, c.good = true) : ∀ c ∈ a ++ b, c.good = true := by
  intro c hc
  rcases List.mem_append.mp hc with h | h
  · exact ha c h
  · exact hb c h

theorem good_cons (c : Chunk) (l : List Chunk) (h : c.good = true)
    (hl : ∀ x ∈ l, x.good = true) : ∀ x ∈ c :: l, x.good = true := by
  intro x hx
  rcases List.mem_cons.mp hx with h1 | h1
  · subst h1
    exact h
  · exact hl x h1

theorem good_nil : ∀ x ∈ ([] : List Chunk), x.good = true := by
  intro x hx
  cases hx

theorem good_replicate_pop (n : ℕ) : ∀ x ∈ List.replicate n Chunk.pop1, x.good = true := by
  intro x hx
  rw [List.eq_of_mem_replicate hx]
  rfl

theorem pushFullW_good (w y : ℕ) (h1 : 1 ≤ w) (h2 : w ≤ 32) :
    (Chunk.pushFull w (getrandbits (8 * w) y)).good = true := by
  simp only [Chunk.good, Bool.and_eq_true, decide_eq_true_eq]
  exact ⟨⟨h1, h2⟩, Nat.mod_lt _ (Nat.pos_pow_of_pos _ (by norm_num))⟩

theorem pushLess32_good (y : ℕ) : (Chunk.pushLess32 (randintN 0 31 y)).good = true := by
  simp only [Chunk.good, decide_eq_true_eq, randintN]
  omega

theorem vOperands_good (cfg : VCfg) (r : Rng) (pos : ℕ) (op : ℕ) (needed : Int) (prev : Int)
    (h1 : 1 ≤ cfg.pushMax) (h2 : cfg.pushMax ≤ 32) (l : List Chunk) (p2 : ℕ)
    (heq : vOperands cfg r pos op needed prev = Except.ok (l, p2)) :
    ∀ c ∈ l, c.good = true := by
  have hp1 : 1 ≤ cfg.pushMax.toNat := by omega
  have hp2 : cfg.pushMax.toNat ≤ 32 := by omega
  have hrpv := randomPushV_good cfg.pushMax.toNat cfg.randomizePush r pos hp1 hp2
  by_cases hb : op ∈ byteOps
  · rw [vOperands_byte _ _ _ _ _ _ hb] at heq
    by_cases hcp : (cfg.cleanStack || prev == 0) = true
    · simp only [if_pos hcp, Except.ok.injEq, Prod.mk.injEq] at heq
      obtain ⟨hl, -⟩ := heq
      subst hl
      refine good_append _ _ (good_cons _ _ hrpv good_nil) (good_cons _ _ ?_ good_nil)
      exact pushLess32_good _
    · simp only [if_neg hcp, Except.ok.injEq, Prod.mk.injEq] at heq
      obtain ⟨hl, -⟩ := heq
      subst hl
      exact good_append _ _ good_nil (good_cons _ _ (pushLess32_good _) good_nil)
  · by_cases hs : op ∈ shiftOps
    · rw [vOperands_shift _ _ _ _ _ _ hs hb] at heq
      by_cases hcp : (cfg.cleanStack || prev == 0) = true
      · simp only [if_pos hcp, Except.ok.injEq, Prod.mk.injEq] at heq
        obtain ⟨hl, -⟩ := heq
        subst hl
        refine good_append _ _ (good_cons _ _ hrpv good_nil) (good_cons _ _ ?_ good_nil)
        exact pushFullW_good 1 _ (by norm_num) (by norm_num)
      · simp only [if_neg hcp, Except.ok.injEq, Prod.mk.injEq] at heq
        obtain ⟨hl, -⟩ := heq
        subst hl
        refine good_append _ _ good_nil (good_cons _ _ ?_ good_nil)
        exact pushFullW_good 1 _ (by norm_num) (by norm_num)
    · by_cases hm : op ∈ memoryOps
      · rw [vOperands_memory _ _ _ _ _ _ hm hb hs] at heq
        by_cases hcl : cfg.cleanStack = true
        · simp only [if_pos hcl, Except.ok.injEq] at heq
          have hl : l = (byteSizePushes r pos needed.toNat).1 := by rw [heq]
          subst hl
          exact byteSizePushes_good r _ _
        · simp only [if_neg hcl] at heq
          cases heq
      · by_cases hms : op ∈ mstoreOps
        · rw [vOperands_mstore _ _ _ _ _ _ hms hb hs hm] at heq
          by_cases hcl : cfg.cleanStack = true
          · simp only [if_pos hcl, Except.ok.injEq, Prod.mk.injEq] at heq
            obtain ⟨hl, -⟩ := heq
            subst hl
            exact good_cons _ _ hrpv (good_cons _ _ rfl good_nil)
          · simp only [if_neg hcl] at heq
            cases heq
        · rw [vOperands_generic _ _ _ _ _ _ hb hs hm hms] at heq
          simp only [Except.ok.injEq] at heq
          have hl : l =
              (randomPushesV cfg.pushMax.toNat cfg.randomizePush r pos needed.toNat).1 := by
            rw [heq]
          subst hl
          exact randomPushesV_good _ _ _ hp1 hp2 _ _

theorem vBlock_good (cfg : VCfg) (r : Rng) (pos : ℕ) (op : ℕ) (prev : Int) (cur : List Chunk)
    (h1 : 1 ≤ cfg.pushMax) (h2 : cfg.pushMax ≤ 32) (blk : List Chunk) (rest : Int × Int × ℕ)
    (heq : vBlock cfg r pos op prev cur = Except.ok (blk, rest)) :
    ∀ c ∈ blk, c.good = true := by
  rcases hvo : vOperands cfg r pos op
      (if cfg.cleanStack then arity op else arity op - prev) prev with e | pr
  · cases e
    rw [vBlock_err _ _ _ _ _ _ hvo] at heq
    cases heq
  · rcases pr with ⟨pushC, pos2⟩
    have hpc := vOperands_good cfg r pos op _ prev h1 h2 pushC pos2 hvo
    rw [vBlock_eq _ _ _ _ _ _ _ _ hvo] at heq
    split_ifs at heq <;>
      (simp only [Except.ok.injEq, Prod.mk.injEq] at heq
       obtain ⟨hblk, -⟩ := heq
       subst hblk
       repeat' apply good_append
       all_goals
         first
         | exact hpc
         | exact good_replicate_pop _
         | exact good_cons _ _ rfl good_nil)

theorem aBlock_good (cfg : ACfg) (r : Rng) (pos : ℕ) (op : ℕ)
    (h1 : 1 ≤ cfg.push) (h2 : cfg.push ≤ 32) :
    ∀ c ∈ (aBlock cfg r pos op).1, c.good = true := by
  have hp1 : 1 ≤ cfg.push.toNat := by omega
  have hp2 : cfg.push.toNat ≤ 32 := by omega
  unfold aBlock
  split_ifs <;>
    (repeat' apply good_append
     all_goals
       first
       | exact good_nil
       | exact fullPushesA_good _ _ hp1 hp2 _ _
       | exact good_cons _ _ (pushFullW_good _ _ hp1 hp2)
           (good_cons _ _ rfl good_nil)
       | exact good_cons _ _ (pushFullW_good _ _ hp1 hp2) good_nil
       | exact good_cons _ _ (pushFullW_good 1 _ (by norm_num) (by norm_num))
           (good_cons _ _ rfl good_nil)
       | exact good_cons _ _ (pushFullW_good 1 _ (by norm_num) (by norm_num)) good_nil
       | exact good_cons _ _ (pushLess32_good _) good_nil
       | exact good_cons _ _ rfl (good_cons _ _ rfl good_nil)
       | exact good_cons _ _ rfl good_nil)

theorem iterV_good (cfg : VCfg) (r : Rng) (st st' : VState)
    (h1 : 1 ≤ cfg.pushMax) (h2 : cfg.pushMax ≤ 32)
    (hst : ∀ c ∈ st.chunks, c.good = true) (h : iterV cfg r st = Except.ok st') :
    ∀ c ∈ st'.chunks, c.good = true := by
  rcases hdraw : vDrawOp cfg r st.pos with ⟨op, pos1⟩
  simp only [iterV, hdraw] at h
  rcases hvb : vBlock cfg r pos1 op st.prevN st.chunks with e | res
  · rw [hvb] at h
    cases h
  · rcases res with ⟨blk, rest⟩
    rw [hvb] at h
    simp only [Except.ok.injEq] at h
    subst h
    exact good_append _ _ hst (vBlock_good cfg r pos1 op st.prevN st.chunks h1 h2 blk rest hvb)

theorem loopV_good (cfg : VCfg) (r : Rng) (h1 : 1 ≤ cfg.pushMax) (h2 : cfg.pushMax ≤ 32) :
    ∀ (fuel : ℕ) (st st' : VState), (∀ c ∈ st.chunks, c.good = true) →
      (loopV cfg r fuel st = VRes.ok st' ∨ loopV cfg r fuel st = VRes.fuelOut st') →
      ∀ c ∈ st'.chunks, c.good = true := by
  intro fuel
  induction fuel with
  | zero =>
    intro st st' hst hres
    unfold loopV at hres
    rcases hres with h | h <;> split at h <;> cases h <;> exact hst
  | succ f ih =>
    intro st st' hst hres
    unfold loopV at hres
    by_cases hc : condV cfg st = true
    · rw [if_pos hc] at hres
      rcases hiter : iterV cfg r st with e | st1
      · rw [hiter] at hres
        rcases hres with h | h <;> cases h
      · rw [hiter] at hres
        exact ih st1 st' (iterV_good cfg r st st1 h1 h2 hst hiter) hres
    · rw [if_neg hc] at hres
      rcases hres with h | h <;> cases h
      exact hst

theorem iterA_good (cfg : ACfg) (r : Rng) (st : AState)
    (h1 : 1 ≤ cfg.push) (h2 : cfg.push ≤ 32)
    (hst : ∀ c ∈ st.chunks, c.good = true) :
    ∀ c ∈ (iterA cfg r st).chunks, c.good = true := by
  have hch : (iterA cfg r st).chunks =
      st.chunks ++ (aBlock cfg r (aDrawOp cfg r st.pos).2 (aDrawOp cfg r st.pos).1).1 := rfl
  rw [hch]
  exact good_append _ _ hst (aBlock_good cfg r _ _ h1 h2)

theorem loopA_good (cfg : ACfg) (r : Rng) (h1 : 1 ≤ cfg.push) (h2 : cfg.push ≤ 32) :
    ∀ (fuel : ℕ) (st st' : AState), (∀ c ∈ st.chunks, c.good = true) →
      (loopA cfg r fuel st = ARes.ok st' ∨ loopA cfg r fuel st = ARes.fuelOut st') →
      ∀ c ∈ st'.chunks, c.good = true := by
  intro fuel
  induction fuel with
  | zero =>
    intro st st' hst hres
    unfold loopA at hres
    rcases hres with h | h <;> split at h <;> cases h <;> exact hst
  | succ f ih =>
    intro st st' hst hres
    unfold loopA at hres
    by_cases hc : condA cfg st = true
    · rw [if_pos hc] at hres
      exact ih (iterA cfg r st) st' (iterA_good cfg r st h1 h2 hst) hres
    · rw [if_neg hc] at hres
      rcases hres with h | h <;> cases h
      exact hst

/-- C3: for every push-class opcode emitted into a program's bytecode by
either generator — synthesized operand pushes, bounded pushes, stored
push-parameter immediates and jump-target pushes alike — the immediate that
follows the push opcode byte has hex length exactly twice the resolved push
width in bytes, for every configured width from 1 to 32. -/
theorem c3_push_immediate_width :
    (∀ (cfg : VCfg) (r : Rng) (fuel : ℕ) (st st' : VState),
      1 ≤ cfg.pushMax → cfg.pushMax ≤ 32 → (∀ c ∈ st.chunks, c.good = true) →
      (loopV cfg r fuel st = VRes.ok st' ∨ loopV cfg r fuel st = VRes.fuelOut st') →
      ∀ c ∈ st'.chunks, c.immOk = true) ∧
    (∀ (cfg : ACfg) (r : Rng) (fuel : ℕ) (st st' : AState),
      1 ≤ cfg.push → cfg.push ≤ 32 → (∀ c ∈ st.chunks, c.good = true) →
      (loopA cfg r fuel st = ARes.ok st' ∨ loopA cfg r fuel st = ARes.fuelOut st') →
      ∀ c ∈ st'.chunks, c.immOk = true) := by
  constructor
  · intro cfg r fuel st st' h1 h2 hst hres c hc
    exact good_immOk c (loopV_good cfg r h1 h2 fuel st st' hst hres c hc)
  · intro cfg r fuel st st' h1 h2 hst hres c hc
    exact good_immOk c (loopA_good cfg r h1 h2 fuel st st' hst hres c hc)

/-- Witness for C3 at concrete one-iteration runs of both generators. -/
theorem c3_push_immediate_width_witness :
    (∀ c ∈ (vInit 0).chunks ++ [Chunk.pushFull 32 0, Chunk.pushFull 32 0, Chunk.opHex 1],
      c.immOk = true) ∧
    (∀ c ∈ [Chunk.pushFull 32 0], c.immOk = true) :=
  ⟨c3_push_immediate_width.1 ⟨some 1, none, none, 32, false, false⟩ (fun _ => 0) 1 (vInit 0)
      ⟨(vInit 0).chunks ++ [Chunk.pushFull 32 0, Chunk.pushFull 32 0, Chunk.opHex 1], 3, 1, 3⟩
      (by decide) (by decide) (by decide) (Or.inl (by decide)),
   c3_push_immediate_width.2 ⟨none, some 1, none, none, 32, false⟩ (fun _ => 0) 1
      ⟨[Chunk.pushFull 32 0], 1, 3, 1⟩ ⟨[Chunk.pushFull 32 0], 1, 3, 1⟩
      (by decide) (by decide) (by decide) (Or.inl (by decide))⟩

/-- C10: every program the validation generator returns — regardless of
configuration and of whether a limit was already exceeded when the loop was
entered — has the eleven-character literal placeholder `'unreachable'`
appended exactly once after the loop exits: the bytecode decomposes as a
purely hexadecimal prefix followed by `'unreachable'`, and is therefore
never a pure hexadecimal string. -/
theorem c10_unreachable_suffix (cfg : VCfg) (r : Rng) (fuel pos : ℕ) (p : ProgramV)
    (pos' : ℕ) (h : generateOneV cfg r fuel pos = VOut.ok p pos') :
    ∃ pre, p.bytecode = pre ++ ['u','n','r','e','a','c','h','a','b','l','e'] ∧
      (∀ c ∈ pre, c ∈ hexChars) ∧ ¬(∀ c ∈ p.bytecode, c ∈ hexChars) := by
  unfold generateOneV at h
  split at h
  · cases h
  · rename_i hpush
    push_neg at hpush
    have h1 : 1 ≤ cfg.pushMax := hpush.1
    have h2 : cfg.pushMax ≤ 32 := hpush.2
    rcases hloop : loopV cfg r fuel (vInit pos) with st | e | st
    · rw [hloop] at h
      simp only [VOut.ok.injEq] at h
      obtain ⟨hp, -⟩ := h
      subst hp
      have hgood : ∀ c ∈ st.chunks, c.good = true := by
        apply loopV_good cfg r h1 h2 fuel (vInit pos) st _ (Or.inl hloop)
        show ∀ c ∈ vInitChunks, c.good = true
        decide
      refine ⟨renderChunks st.chunks, ?_, ?_, ?_⟩
      · show renderChunks (st.chunks ++ [Chunk.unreachableC]) = _
        rw [renderChunks_append]
        rfl
      · exact renderChunks_hex st.chunks hgood
      · intro hall
        have hu : 'u' ∈ renderChunks (st.chunks ++ [Chunk.unreachableC]) := by
          rw [renderChunks_append]
          apply List.mem_append.mpr
          right
          show 'u' ∈ renderChunks [Chunk.unreachableC]
          decide
        exact absurd (hall _ hu) (by decide)
    · rw [hloop] at h
      cases h
    · rw [hloop] at h
      cases h

/-- Witness for C10 at a concrete completed run. -/
theorem c10_unreachable_suffix_witness :
    ∃ pre, (ProgramV.mk (renderChunks ([Chunk.preambleMstore, Chunk.jumpComboC 41 86,
          Chunk.pushFull 32 0, Chunk.pushFull 32 0, Chunk.opHex 1] ++ [Chunk.unreachableC]))
        none).bytecode = pre ++ ['u','n','r','e','a','c','h','a','b','l','e'] ∧
      (∀ c ∈ pre, c ∈ hexChars) ∧
      ¬(∀ c ∈ (ProgramV.mk (renderChunks ([Chunk.preambleMstore, Chunk.jumpComboC 41 86,
          Chunk.pushFull 32 0, Chunk.pushFull 32 0, Chunk.opHex 1] ++ [Chunk.unreachableC]))
        none).bytecode, c ∈ hexChars) :=
  c10_unreachable_suffix ⟨some 1, none, none, 32, false, false⟩ (fun _ => 0) 2 0 _ 3 rfl
